import Mathlib

/-! go_orm_gorm: users, posts and comments behind lifecycle hooks.

A shallow embedding of `model_defintion/defintion.go`.

The program is a handful of calls into the object-relational mapper `gorm`
in front of a MySQL store.  The store is embedded as three tables (lists of
rows, in insertion order); a `*gorm.DB` handle is embedded as the store
together with the clock the mapper stamps rows with, a script that says which
of the coming statements fail (connection loss and the like), and a log of
what has been executed.  Every mapper call the program makes is embedded as
the statement(s) it sends:

* every model embeds `gorm.Model`, so reads, counts and updates carry
  `deleted_at IS NULL`, and `Delete` is an `UPDATE ... SET deleted_at = now`;
* `Create`, `Delete` run inside a transaction: an error in the statement or in
  a hook rolls the store back;
* a hook is invoked on the value handed to `Create`/`Delete` (each element when
  that value is a slice), not on the rows a statement happens to touch.
-/

namespace model_defintion

/-! ## Models -/

/-- The embedded `gorm.Model`: key, timestamps and the soft-delete mark. -/
structure Model where
  ID : Nat := 0
  CreatedAt : Nat := 0
  UpdatedAt : Nat := 0
  DeletedAt : Option Nat := none
deriving DecidableEq, Repr

/-- The `Comment` model. -/
structure Comment extends Model where
  Content : String := ""
  PostID : Nat := 0
  UserID : Nat := 0
deriving DecidableEq, Repr

/-- The `Post` model; `Comments` is the has-many association (empty in a stored row). -/
structure Post extends Model where
  Title : String := ""
  Content : String := ""
  UserID : Nat := 0
  CommentStatus : String := ""
  Comments : List Comment := []
deriving DecidableEq, Repr

/-- The `User` model; `Posts` is the has-many association (empty in a stored row). -/
structure User extends Model where
  Username : String := ""
  Email : String := ""
  PasswordHash : String := ""
  PostCount : Int := 0
  Posts : List Post := []
deriving DecidableEq, Repr

/-! ## Store and handle -/

/-- The three tables, rows in insertion order, soft-deleted rows included. -/
structure Store where
  users : List User := []
  posts : List Post := []
  comments : List Comment := []
deriving DecidableEq, Repr

/-- The statements the program sends to the store. -/
inductive Stmt where
  | countComments (postID : Nat)
  | updateColumnCommentStatus (postID : Nat) (status : String)
  | updateCommentStatus (postID : Nat) (status : String)
  | incrPostCount (userID : Nat)
  | softDeleteComments (postID : Option Nat) (id : Nat)
  | insertUser (username : String)
  | insertPosts (n : Nat)
  | insertComments (n : Nat)
  | selectUser (id : Nat)
  | selectPosts (userID : Nat)
  | selectComments (postIDs : List Nat)
  | selectPostsByCommentCount
deriving DecidableEq, Repr

/-- The lifecycle hooks the models define. -/
inductive Hook where
  | postAfterCreate (userID : Nat)
  | commentAfterCreate (postID : Nat)
  | commentAfterDelete (postID : Nat)
deriving DecidableEq, Repr

/-- One entry of the handle's log: a statement with whether it failed, or the
mapper invoking a hook. -/
inductive Event where
  | exec (st : Stmt) (failed : Bool)
  | hook (h : Hook)
deriving DecidableEq, Repr

/-- A `*gorm.DB` handle.  `faults` scripts the coming statements: the head is
consumed by the next statement, `some e` makes it fail with `e`; once the
script is used up nothing fails any more. -/
structure DB where
  store : Store := {}
  now : Nat := 0
  faults : List (Option String) := []
  log : List Event := []
deriving DecidableEq, Repr

/-- Largest value of a signed 64-bit column (`BIGINT`, Go `int64`). -/
def maxInt64 : Int := 9223372036854775807

/-- The key an auto-increment column hands out next. -/
def nextID (ids : List Nat) : Nat := ids.foldr max 0 + 1

/-- Number of rows `... FROM comments WHERE post_id = ? AND deleted_at IS NULL`. -/
def liveCommentCount (cs : List Comment) (postID : Nat) : Nat :=
  cs.countP (fun c => c.DeletedAt.isNone && c.PostID == postID)

/-- Number of rows `... FROM posts WHERE user_id = ? AND deleted_at IS NULL`. -/
def livePostCount (ps : List Post) (userID : Nat) : Nat :=
  ps.countP (fun p => p.DeletedAt.isNone && p.UserID == userID)

/-- Send one statement: it fails with the scripted fault if there is one, else
with the error the server raises on the data (`serverErr`), else it succeeds.
Either way it is logged and the script advances. -/
def DB.exec (db : DB) (st : Stmt) (serverErr : Option String) : Option String × DB :=
  let err := match db.faults.head?.join with
    | some e => some e
    | none => serverErr
  (err, { db with faults := db.faults.tail, log := db.log ++ [Event.exec st err.isSome] })

/-- The mapper records that it calls a hook. -/
def DB.invoke (db : DB) (h : Hook) : DB :=
  { db with log := db.log ++ [Event.hook h] }

/-- `tx.Model(&Comment{}).Where("post_id = ?", postID).Count(&count)`: the count
(left at 0 on failure) and the error. -/
def DB.CountComments (tx : DB) (postID : Nat) : Nat × Option String × DB :=
  match tx.exec (.countComments postID) none with
  | (some err, tx1) => (0, some err, tx1)
  | (none, tx1) => (liveCommentCount tx.store.comments postID, none, tx1)

/-- The rows of `UPDATE posts SET comment_status = ? [, updated_at = now]
WHERE id = ? AND deleted_at IS NULL`. -/
def setCommentStatus (ps : List Post) (postID : Nat) (status : String)
    (touch : Option Nat) : List Post :=
  ps.map fun p =>
    if p.DeletedAt.isNone && p.ID == postID then
      { p with CommentStatus := status, UpdatedAt := touch.getD p.UpdatedAt }
    else p

/-- `tx.Model(&Post{}).Where(postID).UpdateColumn("comment_status", status)`:
a bare integer condition is a condition on the primary key; `UpdateColumn`
leaves `updated_at` alone.  Matching no row is not an error. -/
def DB.UpdateColumnCommentStatus (tx : DB) (postID : Nat) (status : String) :
    Option String × DB :=
  match tx.exec (.updateColumnCommentStatus postID status) none with
  | (some err, tx1) => (some err, tx1)
  | (none, tx1) =>
    (none, { tx1 with store :=
      { tx1.store with posts := setCommentStatus tx1.store.posts postID status none } })

/-- `tx.Model(&Post{}).Where("id = ?", postID).Update("comment_status", status)`:
`Update` also stamps `updated_at`.  Matching no row is not an error. -/
def DB.UpdateCommentStatus (tx : DB) (postID : Nat) (status : String) :
    Option String × DB :=
  match tx.exec (.updateCommentStatus postID status) none with
  | (some err, tx1) => (some err, tx1)
  | (none, tx1) =>
    (none, { tx1 with store :=
      { tx1.store with posts := setCommentStatus tx1.store.posts postID status (some tx1.now) } })

/-- The error MySQL raises when `post_count + 1` leaves the `BIGINT` range. -/
def errOutOfRange : String := "Error 1690 (22003): BIGINT value is out of range"

/-- The rows of `UPDATE users SET post_count = post_count + 1
WHERE id = ? AND deleted_at IS NULL`. -/
def incrPostCount (us : List User) (userID : Nat) : List User :=
  us.map fun u =>
    if u.DeletedAt.isNone && u.ID == userID then { u with PostCount := u.PostCount + 1 } else u

/-- Whether `post_count + 1` leaves the column's range on a row the increment selects. -/
def postCountOverflows (us : List User) (userID : Nat) : Bool :=
  us.any fun u => u.DeletedAt.isNone && u.ID == userID && decide (maxInt64 < u.PostCount + 1)

/-- `tx.Model(&User{}).Where("id = ?", userID).UpdateColumn("post_count",
gorm.Expr("post_count + ?", 1))`: the sum is evaluated by the store, which
rejects the statement when a selected row would leave the column's range. -/
def DB.IncrPostCount (tx : DB) (userID : Nat) : Option String × DB :=
  let overflow := postCountOverflows tx.store.users userID
  match tx.exec (.incrPostCount userID) (if overflow then some errOutOfRange else none) with
  | (some err, tx1) => (some err, tx1)
  | (none, tx1) =>
    (none, { tx1 with store :=
      { tx1.store with users := incrPostCount tx1.store.users userID } })

/-! ## Hooks (defintion.go, lines 35-86) -/

/-- `func (p *Post) AfterCreate(tx *gorm.DB) error`. -/
def Post.AfterCreate (p : Post) (tx : DB) : Option String × DB :=
  match tx.IncrPostCount p.UserID with
  | (some err, tx1) => (some ("更新用户文章数失败：" ++ err), tx1)
  | (none, tx1) => (none, tx1)

/-- `func (c *Comment) AfterCreate(tx *gorm.DB) error`. -/
def Comment.AfterCreate (c : Comment) (tx : DB) : Option String × DB :=
  match tx.CountComments c.PostID with
  | (_, some err, tx1) => (some ("统计文章评论数失败：" ++ err), tx1)
  | (count, none, tx1) =>
    let commentStatus := if count > 0 then "有评论" else "无评论"
    match tx1.UpdateColumnCommentStatus c.PostID commentStatus with
    | (some err, tx2) => (some ("更新文章评论状态失败：" ++ err), tx2)
    | (none, tx2) => (none, tx2)

/-- `func (c *Comment) AfterDelete(tx *gorm.DB) error`. -/
def Comment.AfterDelete (c : Comment) (tx : DB) : Option String × DB :=
  match tx.CountComments c.PostID with
  | (_, some err, tx1) => (some ("统计文章评论数失败：" ++ err), tx1)
  | (commentCount, none, tx1) =>
    let status := if commentCount == 0 then "无评论" else "有评论"
    match tx1.UpdateCommentStatus c.PostID status with
    | (some err, tx2) => (some ("更新文章评论状态失败：" ++ err), tx2)
    | (none, tx2) => (none, tx2)

/-! ## The mapper's `Delete` -/

/-- The default transaction around `Create` and `Delete`: when the body ends
in an error the store is rolled back to where it was. -/
def DB.Transaction (db : DB) (body : DB → Option String × DB) : Option String × DB :=
  match body db with
  | (some err, tx) => (some err, { tx with store := db.store })
  | (none, tx) => (none, tx)

/-- The mapper refuses a delete that has no condition at all. -/
def ErrMissingWhereClause : String := "WHERE conditions required"

/-- The rows of `UPDATE comments SET deleted_at = now WHERE [post_id = ?] [AND id = ?]
AND deleted_at IS NULL`; the key condition is present when the value handed
to `Delete` has a non-zero key. -/
def softDeleteComments (cs : List Comment) (postID : Option Nat) (id : Nat) (now : Nat) :
    List Comment :=
  cs.map fun r =>
    if r.DeletedAt.isNone && (postID.all (r.PostID == ·)) && (id == 0 || r.ID == id) then
      { r with DeletedAt := some now }
    else r

/-- `db.Where("post_id = ?", postID).Delete(&c)` when `wherePostID = some postID`,
`db.Delete(&c)` when it is `none`.  One soft-deleting `UPDATE`; then, if it
succeeded, `AfterDelete` is called once, on `c`. -/
def DB.Delete (db : DB) (wherePostID : Option Nat) (c : Comment) : Option String × DB :=
  db.Transaction fun tx =>
    if wherePostID.isNone && c.ID == 0 then (some ErrMissingWhereClause, tx) else
    match tx.exec (.softDeleteComments wherePostID c.ID) none with
    | (some err, tx1) => (some err, tx1)
    | (none, tx1) =>
      let tx2 := { tx1 with store := { tx1.store with
        comments := softDeleteComments tx1.store.comments wherePostID c.ID tx1.now } }
      let c1 : Comment := { c with DeletedAt := some tx1.now }
      c1.AfterDelete (tx2.invoke (.commentAfterDelete c1.PostID))

/-! ## `DeleteComments` (defintion.go, lines 189-198) -/

/-- `func DeleteComments(db *gorm.DB, PostID uint)`: the result of `Delete` is
not looked at. -/
def DeleteComments (db : DB) (PostID : Nat) : DB :=
  if PostID == 0 then db
  else
    let comment : Comment := { PostID := PostID }
    (db.Delete (some PostID) comment).2

/-! ## The mapper's `Create`

The program creates new records only (`Insert` builds them with a zero
`gorm.Model`), and `Create` is embedded for that case: the store hands out the
key, the clock gives the timestamps, `deleted_at` is `NULL`.  The migration in
`InitDB` declares the unique indexes on `username` and `email` and, for the two
has-many associations, the foreign keys `posts.user_id -> users.id` and
`comments.post_id -> posts.id`.  The column types come from the tags of the
models: `size:n` is `varchar(n)`, counted in characters, `type:text` holds
65535 bytes, a key is an unsigned 64-bit auto-increment column.  The store
(in its default strict mode, its columns in `utf8mb4` like the connection)
refuses a value that does not fit, except that excess trailing spaces are cut
off. -/

/-- The error MySQL raises on a unique index. -/
def errDuplicateEntry : String := "Error 1062 (23000): Duplicate entry"

/-- The error MySQL raises when the referenced parent row does not exist. -/
def errForeignKey : String :=
  "Error 1452 (23000): Cannot add or update a child row: a foreign key constraint fails"

/-- The error MySQL raises on a value longer than its column. -/
def errDataTooLong : String := "Error 1406 (22001): Data too long for column"

/-- The error MySQL raises when an auto-increment column has run out of keys. -/
def errAutoIncrement : String :=
  "Error 1467 (HY000): Failed to read auto-increment value from storage engine"

/-- Largest key of an unsigned 64-bit column (`BIGINT UNSIGNED`, Go `uint`). -/
def maxUint64 : Nat := 18446744073709551615

/-- Number of bytes a `text` column holds. -/
def maxText : Nat := 65535

/-- The longest prefix whose UTF-8 encoding has at most `n` bytes. -/
def takeBytes (n : Nat) : List Char → List Char
  | [] => []
  | c :: cs => if c.utf8Size ≤ n then c :: takeBytes (n - c.utf8Size) cs else []

/-- What a `varchar(n)` column keeps of a value: its first `n` characters. -/
def keepChars (n : Nat) (s : String) : String := String.mk (s.data.take n)

/-- Whether a `varchar(n)` column refuses a value: something other than
spaces lies beyond the first `n` characters. -/
def tooLongChars (n : Nat) (s : String) : Bool := !(s.data.drop n).all (· == ' ')

/-- What a column of `n` bytes keeps of a value: its first `n` bytes. -/
def keepBytes (n : Nat) (s : String) : String := String.mk (takeBytes n s.data)

/-- Whether a column of `n` bytes refuses a value: something other than spaces
lies beyond the first `n` bytes. -/
def tooLongBytes (n : Nat) (s : String) : Bool :=
  !(s.data.drop (takeBytes n s.data).length).all (· == ' ')

/-- Whether a comment to insert points at a post that has no row (deleted or not). -/
def orphanComments (ps : List Post) (rows : List Comment) : Bool :=
  rows.any fun c => !(ps.any (·.ID == c.PostID))

/-- Whether a post to insert points at a user that has no row (deleted or not). -/
def orphanPosts (us : List User) (rows : List Post) : Bool :=
  rows.any fun p => !(us.any (·.ID == p.UserID))

/-- Whether a row (deleted or not) already holds the user name or the e-mail. -/
def duplicateUser (us : List User) (user : User) : Bool :=
  us.any fun u => u.Username == user.Username || u.Email == user.Email

/-- The error the store raises on the `INSERT` of these comments, if any: a
`content` that does not fit, a key out of range, a `post_id` without its post. -/
def insertCommentsError (ps : List Post) (rows : List Comment) : Option String :=
  if rows.any (fun c => tooLongBytes maxText c.Content) then some errDataTooLong
  else if rows.any (fun c => decide (maxUint64 < c.ID)) then some errAutoIncrement
  else if orphanComments ps rows then some errForeignKey
  else none

/-- The error the store raises on the `INSERT` of these posts, if any: a
`title`, `content` or `comment_status` that does not fit, a key out of range,
a `user_id` without its user. -/
def insertPostsError (us : List User) (rows : List Post) : Option String :=
  if rows.any (fun p => tooLongChars 200 p.Title || tooLongBytes maxText p.Content ||
      tooLongChars 20 p.CommentStatus) then some errDataTooLong
  else if rows.any (fun p => decide (maxUint64 < p.ID)) then some errAutoIncrement
  else if orphanPosts us rows then some errForeignKey
  else none

/-- The error the store raises on the `INSERT` of this user, if any: a
`username`, `email` or `password_hash` that does not fit, a key out of range,
a `username` or `email` that is taken. -/
def insertUserError (us : List User) (row : User) : Option String :=
  if tooLongChars 50 row.Username || tooLongChars 100 row.Email ||
      tooLongChars 255 row.PasswordHash then some errDataTooLong
  else if maxUint64 < row.ID then some errAutoIncrement
  else if duplicateUser us row then some errDuplicateEntry
  else none

/-- The row the `comments` table keeps of a comment it accepts. -/
def Comment.kept (c : Comment) : Comment :=
  { c with Content := keepBytes maxText c.Content }

/-- The row the `posts` table keeps of a post it accepts. -/
def Post.kept (p : Post) : Post :=
  { p with Title := keepChars 200 p.Title, Content := keepBytes maxText p.Content,
           CommentStatus := keepChars 20 p.CommentStatus, Comments := [] }

/-- The row the `users` table keeps of a user it accepts. -/
def User.kept (u : User) : User :=
  { u with Username := keepChars 50 u.Username, Email := keepChars 100 u.Email,
           PasswordHash := keepChars 255 u.PasswordHash, Posts := [] }

/-- The mapper's `AddError`: the first error is kept, later ones are appended. -/
def addError (cur err : Option String) : Option String :=
  match cur, err with
  | cur, none => cur
  | none, some e => some e
  | some c, some e => some (c ++ "; " ++ e)

/-- The `after_create` callback on a slice: the hook is called on every
element, in order; an error does not stop the loop. -/
def runHooks {α : Type} (hook : α → DB → Option String × DB) (mark : α → Hook) (xs : List α)
    (tx : DB) : Option String × DB :=
  xs.foldl (fun acc x =>
    let r := hook x (acc.2.invoke (mark x))
    (addError acc.1 r.1, r.2)) (none, tx)

/-- The comments of a batch `INSERT` as new records, keys from `next` on. -/
def newComments (next now : Nat) : List Comment → List Comment
  | [] => []
  | c :: cs =>
    { c with ID := next, CreatedAt := now, UpdatedAt := now, DeletedAt := none }
      :: newComments (next + 1) now cs

/-- The posts of a batch `INSERT` as new records, keys from `next` on; an empty
`CommentStatus` takes the column default. -/
def newPosts (next now : Nat) : List Post → List Post
  | [] => []
  | p :: ps =>
    { p with ID := next, CreatedAt := now, UpdatedAt := now, DeletedAt := none,
             CommentStatus := if p.CommentStatus == "" then "无评论" else p.CommentStatus }
      :: newPosts (next + 1) now ps

/-- `Create` of a non-empty slice of comments (no transaction of its own): one
batch `INSERT`, then `Comment.AfterCreate` on each. -/
def DB.CreateComments (tx : DB) (cs : List Comment) : Option String × DB :=
  let rows := newComments (nextID (tx.store.comments.map (·.ID))) tx.now cs
  match tx.exec (.insertComments rows.length) (insertCommentsError tx.store.posts rows) with
  | (some err, tx1) => (some err, tx1)
  | (none, tx1) =>
    let tx2 := { tx1 with store := { tx1.store with
      comments := tx1.store.comments ++ rows.map Comment.kept } }
    runHooks Comment.AfterCreate (fun c => .commentAfterCreate c.PostID) rows tx2

/-- `Create` of a non-empty slice of posts (no transaction of its own): one
batch `INSERT`; then the has-many association, the comments of all the posts,
each pointed at its post, in one `Create`; then `Post.AfterCreate` on each,
unless an error has been recorded. -/
def DB.CreatePosts (tx : DB) (ps : List Post) : Option String × DB :=
  let rows := newPosts (nextID (tx.store.posts.map (·.ID))) tx.now ps
  match tx.exec (.insertPosts rows.length) (insertPostsError tx.store.users rows) with
  | (some err, tx1) => (some err, tx1)
  | (none, tx1) =>
    let tx2 := { tx1 with store := { tx1.store with
      posts := tx1.store.posts ++ rows.map Post.kept } }
    let elems := (rows.map fun p => p.Comments.map ({ · with PostID := p.ID })).flatten
    match (if elems.isEmpty then (none, tx2) else tx2.CreateComments elems) with
    | (some err, tx3) => (some err, tx3)
    | (none, tx3) => runHooks Post.AfterCreate (fun p => .postAfterCreate p.UserID) rows tx3

/-- `db.Create(&user)`: in one transaction, the `INSERT` of the user, then the
has-many association, the user's posts pointed at the user (`User` has no hook
of its own). -/
def DB.CreateUser (db : DB) (user : User) : Option String × DB :=
  db.Transaction fun tx =>
    let row : User := { user with
      ID := nextID (tx.store.users.map (·.ID)), CreatedAt := tx.now, UpdatedAt := tx.now,
      DeletedAt := none }
    match tx.exec (.insertUser user.Username) (insertUserError tx.store.users row) with
    | (some err, tx1) => (some err, tx1)
    | (none, tx1) =>
      let tx2 := { tx1 with store := { tx1.store with
        users := tx1.store.users ++ [row.kept] } }
      let elems := user.Posts.map ({ · with UserID := row.ID })
      if elems.isEmpty then (none, tx2) else tx2.CreatePosts elems

/-- `db.Create(&post)` for one post, in its own transaction. -/
def DB.CreatePost (db : DB) (post : Post) : Option String × DB :=
  db.Transaction fun tx => tx.CreatePosts [post]

/-- `db.Create(&comment)` for one comment, in its own transaction. -/
def DB.CreateComment (db : DB) (comment : Comment) : Option String × DB :=
  db.Transaction fun tx => tx.CreateComments [comment]

/-! ## `Insert` (defintion.go, lines 123-141) -/

/-- `func Insert(db *gorm.DB) error`: the result of `db.Create(&user)` is not
looked at and `nil` is returned. -/
def Insert (db : DB) : Option String × DB :=
  let user : User := {
    Username := "root",
    Posts := [
      { Title := "爱国1", Content := "我很爱国1", Comments := [
          { Content := "我很爱国1的评论1", UserID := 1 },
          { Content := "我很爱国1的评论2", UserID := 1 },
          { Content := "我很爱国1的评论3", UserID := 1 } ] },
      { Title := "爱国2", Content := "我很爱国2", Comments := [
          { Content := "我很爱国2的评论1", UserID := 1 },
          { Content := "我很爱国2的评论2", UserID := 1 } ] } ] }
  let db1 := (db.CreateUser user).2
  (none, db1)

/-! ## Queries (defintion.go, lines 145-187) -/

/-- The mapper's `gorm.ErrRecordNotFound`. -/
def ErrRecordNotFound : String := "record not found"

/-- `db.Preload("Posts.Comments").First(&user, userID)`: the live user with
that key; then its live posts in one query; then, if there are any, the live
comments of those posts in one query, handed to the posts by foreign key. -/
def DB.FirstUserPreloadPostsComments (db : DB) (userID : Nat) : User × Option String × DB :=
  match db.exec (.selectUser userID) none with
  | (some err, db1) => ({}, some err, db1)
  | (none, db1) =>
    match db1.store.users.find? (fun u => u.DeletedAt.isNone && u.ID == userID) with
    | none => ({}, some ErrRecordNotFound, db1)
    | some user =>
      match db1.exec (.selectPosts user.ID) none with
      | (some err, db2) => (user, some err, db2)
      | (none, db2) =>
        let posts := db2.store.posts.filter fun p => p.DeletedAt.isNone && p.UserID == user.ID
        if posts.isEmpty then ({ user with Posts := [] }, none, db2) else
        match db2.exec (.selectComments (posts.map (·.ID))) none with
        | (some err, db3) => ({ user with Posts := posts }, some err, db3)
        | (none, db3) =>
          let comments := db3.store.comments.filter fun c =>
            c.DeletedAt.isNone && posts.any (·.ID == c.PostID)
          ({ user with Posts := posts.map fun p =>
              { p with Comments := comments.filter (·.PostID == p.ID) } }, none, db3)

/-- `func GetUserPostsWithComments(db *gorm.DB, userID uint) ([]Post, error)`. -/
def GetUserPostsWithComments (db : DB) (userID : Nat) : List Post × Option String × DB :=
  match db.FirstUserPreloadPostsComments userID with
  | (_, some err, db1) => ([], some ("查询用户失败：" ++ err), db1)
  | (user, none, db1) => (user.Posts, none, db1)

/-- The sub-query `SELECT post_id, COUNT(*) as comment_count FROM comments
WHERE deleted_at IS NULL GROUP BY post_id`. -/
def commentStats (cs : List Comment) : List (Nat × Nat) :=
  let live := cs.filter (·.DeletedAt.isNone)
  (live.map (·.PostID)).dedup.map fun postID => (postID, live.countP (·.PostID == postID))

/-- `IFNULL(comment_stats.comment_count, 0)` on the row of `p` in
`posts LEFT JOIN comment_stats ON posts.id = comment_stats.post_id`. -/
def joinedCommentCount (stats : List (Nat × Nat)) (p : Post) : Nat :=
  (stats.lookup p.ID).getD 0

/-- `ORDER BY comment_count DESC, posts.id`: `Order` of the program, then the
primary key `First` appends. -/
def byCommentCount (a b : Post × Nat) : Prop :=
  b.2 < a.2 ∨ (a.2 = b.2 ∧ a.1.ID ≤ b.1.ID)

instance : DecidableRel byCommentCount := fun a b => by
  unfold byCommentCount; exact inferInstance

instance : IsTotal (Post × Nat) byCommentCount where
  total a b := by unfold byCommentCount; omega

instance : IsTrans (Post × Nat) byCommentCount where
  trans a b c := by unfold byCommentCount; omega

/-- `db.Model(&Post{}).Joins(...).Select(...).Order("comment_count DESC").First(&post)`. -/
def DB.FirstPostByCommentCount (db : DB) : Post × Option String × DB :=
  let subQuery := commentStats db.store.comments
  match db.exec .selectPostsByCommentCount none with
  | (some err, db1) => ({}, some err, db1)
  | (none, db1) =>
    let rows := (db1.store.posts.filter (·.DeletedAt.isNone)).map fun p =>
      (p, joinedCommentCount subQuery p)
    match (rows.insertionSort byCommentCount).head? with
    | none => ({}, some ErrRecordNotFound, db1)
    | some row => (row.1, none, db1)

/-- `func GetPostWithMostComments(db *gorm.DB) (Post, int64, error)`: the error
of the final count is not looked at. -/
def GetPostWithMostComments (db : DB) : Post × Nat × Option String × DB :=
  match db.FirstPostByCommentCount with
  | (post, some err, db1) =>
    if err == ErrRecordNotFound then (post, 0, some "暂无文章数据", db1)
    else (post, 0, some ("查询评论最多的文章失败：" ++ err), db1)
  | (post, none, db1) =>
    let r := db1.CountComments post.ID
    (post, r.1, none, r.2.2)

/-! ## Vocabulary of the properties -/

/-- What a handle has logged since it was `before`. -/
def DB.since (after before : DB) : List Event := after.log.drop before.log.length

/-- A logged statement that failed. -/
def Event.isFailure : Event → Bool
  | .exec _ failed => failed
  | .hook _ => false

/-- How often the log shows the mapper invoking the hook `h`. -/
def hookRuns (log : List Event) (h : Hook) : Nat := log.count (Event.hook h)

/-- The row `Create` stores for a new comment. -/
def Comment.stored (c : Comment) (db : DB) : Comment :=
  { c with ID := nextID (db.store.comments.map (·.ID)), CreatedAt := db.now, UpdatedAt := db.now,
           DeletedAt := none, Content := keepBytes maxText c.Content }

/-- The row `Create` stores for a new post. -/
def Post.stored (p : Post) (db : DB) : Post :=
  { p with ID := nextID (db.store.posts.map (·.ID)), CreatedAt := db.now, UpdatedAt := db.now,
           DeletedAt := none,
           Title := keepChars 200 p.Title, Content := keepBytes maxText p.Content,
           CommentStatus :=
             keepChars 20 (if p.CommentStatus == "" then "无评论" else p.CommentStatus),
           Comments := [] }

/-- The store has a live post with this key. -/
def hasLivePost (s : Store) (postID : Nat) : Prop :=
  ∃ p ∈ s.posts, p.DeletedAt = none ∧ p.ID = postID

/-- The status column of the post says "有评论" exactly when it has a live comment. -/
def statusAgrees (s : Store) (postID : Nat) : Prop :=
  ∀ p ∈ s.posts, p.DeletedAt = none → p.ID = postID →
    (p.CommentStatus = "有评论" ↔ 0 < liveCommentCount s.comments postID)

/-- The store has a live user with this key. -/
def hasLiveUser (s : Store) (userID : Nat) : Prop :=
  ∃ u ∈ s.users, u.DeletedAt = none ∧ u.ID = userID

/-- The counter column of the user is the number of its live posts. -/
def postCountAgrees (s : Store) (userID : Nat) : Prop :=
  ∀ u ∈ s.users, u.DeletedAt = none → u.ID = userID →
    u.PostCount = livePostCount s.posts userID

/-- An operation on the comments of one post: `db.Create(&comment)` of a new
comment of the post, `db.Delete(&c)` of a comment value of the post (by its
key), or `DeleteComments` on the post. -/
inductive CommentOp where
  | create (content : String) (userID : Nat)
  | delete (c : Comment)
  | deleteAll
deriving DecidableEq, Repr

/-- The handle after one comment operation on the post `postID`. -/
def CommentOp.run (postID : Nat) (db : DB) : CommentOp → DB
  | .create content userID =>
    (db.CreateComment { Content := content, PostID := postID, UserID := userID }).2
  | .delete c => (db.Delete none { c with PostID := postID }).2
  | .deleteAll => DeleteComments db postID

/-- The handle after `db.Create(&post)` of a new post (title, content) of the user. -/
def createPostFor (userID : Nat) (db : DB) (post : String × String) : DB :=
  (db.CreatePost { Title := post.1, Content := post.2, UserID := userID }).2

/-- The handles after each operation of a sequence, in order. -/
def history {Op : Type} (step : DB → Op → DB) (db : DB) : List Op → List DB
  | [] => []
  | op :: ops => step db op :: history step (step db op) ops

/-- An operation on a handle only appends to the log, and it reports an error
exactly when one of the statements it appended failed. -/
def Reports (f : DB → Option String × DB) : Prop :=
  ∀ tx, ∃ new, (f tx).2.log = tx.log ++ new ∧
    ((f tx).1 ≠ none ↔ ∃ e ∈ new, e.isFailure = true)

/-- Three posts with 3, 5 and 1 live comments (and one deleted comment on the
first). -/
def ranking : DB :=
  { store :=
    { users := [{ ID := 1, Username := "root", PostCount := 3 }],
      posts := [
        { ID := 1, Title := "a", UserID := 1, CommentStatus := "有评论" },
        { ID := 2, Title := "b", UserID := 1, CommentStatus := "有评论" },
        { ID := 3, Title := "c", UserID := 1, CommentStatus := "有评论" }],
      comments := [
        { ID := 1, PostID := 1 }, { ID := 2, PostID := 1 }, { ID := 3, PostID := 1 },
        { ID := 4, PostID := 2 }, { ID := 5, PostID := 2 }, { ID := 6, PostID := 2 },
        { ID := 7, PostID := 2 }, { ID := 8, PostID := 2 }, { ID := 9, PostID := 3 },
        { ID := 10, PostID := 1, DeletedAt := some 7 }] } }

/-- The store `Insert` leaves when run on an empty one at time 0: the user
"root", two posts, three comments on the first and two on the second. -/
def blog : DB :=
  { store :=
    { users := [{ ID := 1, Username := "root", PostCount := 2 }],
      posts := [
        { ID := 1, Title := "爱国1", Content := "我很爱国1", UserID := 1, CommentStatus := "有评论" },
        { ID := 2, Title := "爱国2", Content := "我很爱国2", UserID := 1, CommentStatus := "有评论" }],
      comments := [
        { ID := 1, Content := "我很爱国1的评论1", PostID := 1, UserID := 1 },
        { ID := 2, Content := "我很爱国1的评论2", PostID := 1, UserID := 1 },
        { ID := 3, Content := "我很爱国1的评论3", PostID := 1, UserID := 1 },
        { ID := 4, Content := "我很爱国2的评论1", PostID := 2, UserID := 1 },
        { ID := 5, Content := "我很爱国2的评论2", PostID := 2, UserID := 1 }] } }

/-! ## Lemmas on the primitives -/

theorem mem_setCommentStatus {ps : List Post} {id : Nat} {st : String} {t : Option Nat} {p : Post}
    (hp : p ∈ setCommentStatus ps id st t) (hl : p.DeletedAt = none) (hi : p.ID = id) :
    p.CommentStatus = st ∧ ∃ q ∈ ps, q.DeletedAt = none ∧ q.ID = id := by
  unfold setCommentStatus at hp
  rw [List.mem_map] at hp
  obtain ⟨q, hq, rfl⟩ := hp
  by_cases h : (q.DeletedAt.isNone && q.ID == id) = true
  · rw [if_pos h] at hl hi ⊢
    simp only [Bool.and_eq_true, Option.isNone_iff_eq_none, beq_iff_eq] at h
    exact ⟨rfl, q, hq, h.1, h.2⟩
  · rw [if_neg h] at hl hi
    exact absurd (by simp [hl, hi]) h

theorem exists_setCommentStatus {ps : List Post} {id : Nat} (st : String) (t : Option Nat)
    (h : ∃ q ∈ ps, q.DeletedAt = none ∧ q.ID = id) :
    ∃ p ∈ setCommentStatus ps id st t, p.DeletedAt = none ∧ p.ID = id := by
  obtain ⟨q, hq, hl, hi⟩ := h
  refine ⟨{ q with CommentStatus := st, UpdatedAt := t.getD q.UpdatedAt }, ?_, hl, hi⟩
  unfold setCommentStatus
  rw [List.mem_map]
  exact ⟨q, hq, by simp [hl, hi]⟩

theorem getElem?_setCommentStatus {ps : List Post} {id : Nat} (st : String) (t : Option Nat)
    {i : Nat} {p : Post} (hp : ps[i]? = some p) (hi : p.ID ≠ id) :
    (setCommentStatus ps id st t)[i]? = some p := by
  simp [setCommentStatus, hp, hi]

theorem liveCommentCount_softDelete (cs : List Comment) (id now : Nat) :
    liveCommentCount (softDeleteComments cs (some id) 0 now) id = 0 := by
  unfold liveCommentCount softDeleteComments
  rw [List.countP_eq_zero]
  intro c hc
  rw [List.mem_map] at hc
  obtain ⟨r, -, rfl⟩ := hc
  by_cases h : r.DeletedAt = none ∧ r.PostID = id
  · simp [h]
  · simp only [Option.all_some, beq_self_eq_true, Bool.true_or, Bool.and_true, Bool.and_eq_true,
      Option.isNone_iff_eq_none, beq_iff_eq, h, if_false, not_false_eq_true]

theorem getElem?_softDeleteComments {cs : List Comment} {id : Nat} (k now : Nat)
    {i : Nat} {c : Comment} (hc : cs[i]? = some c) (hi : c.PostID ≠ id) :
    (softDeleteComments cs (some id) k now)[i]? = some c := by
  simp [softDeleteComments, hc, hi]

theorem mem_incrPostCount {us : List User} {id : Nat} {u : User}
    (hu : u ∈ incrPostCount us id) (hl : u.DeletedAt = none) (hi : u.ID = id) :
    ∃ v ∈ us, v.DeletedAt = none ∧ v.ID = id ∧ u.PostCount = v.PostCount + 1 := by
  unfold incrPostCount at hu
  rw [List.mem_map] at hu
  obtain ⟨v, hv, rfl⟩ := hu
  by_cases h : (v.DeletedAt.isNone && v.ID == id) = true
  · rw [if_pos h] at hl hi ⊢
    simp only [Bool.and_eq_true, Option.isNone_iff_eq_none, beq_iff_eq] at h
    exact ⟨v, hv, h.1, h.2, rfl⟩
  · rw [if_neg h] at hl hi
    exact absurd (by simp [hl, hi]) h

theorem exists_incrPostCount {us : List User} {id : Nat}
    (h : ∃ v ∈ us, v.DeletedAt = none ∧ v.ID = id) :
    ∃ u ∈ incrPostCount us id, u.DeletedAt = none ∧ u.ID = id := by
  obtain ⟨v, hv, hl, hi⟩ := h
  refine ⟨{ v with PostCount := v.PostCount + 1 }, ?_, hl, hi⟩
  unfold incrPostCount
  rw [List.mem_map]
  exact ⟨v, hv, by simp [hl, hi]⟩

theorem livePostCount_stored (ps : List Post) (p : Post) (db : DB) :
    livePostCount (ps ++ [p.stored db]) p.UserID = livePostCount ps p.UserID + 1 := by
  simp [livePostCount, Post.stored, List.countP_append]

theorem orphanPosts_single {us : List User} {id : Nat} (hu : ∃ u ∈ us, u.ID = id) (q : Post)
    (hq : q.UserID = id) : orphanPosts us [q] = false := by
  obtain ⟨u, hu, hi⟩ := hu
  simp only [orphanPosts, List.any_cons, List.any_nil, Bool.or_false, Bool.not_eq_false',
    List.any_eq_true, beq_iff_eq]
  exact ⟨u, hu, hi.trans hq.symm⟩

/-! ## What the mapper's operations leave behind -/

/-- A failed `Delete` leaves the store alone; a successful one has marked the
selected comments and written the status from the count taken afterwards. -/
theorem Delete_store (db : DB) (w : Option Nat) (c : Comment) :
    ((db.Delete w c).1 ≠ none ∧ (db.Delete w c).2.store = db.store) ∨
    ((db.Delete w c).1 = none ∧ (db.Delete w c).2.store =
      { users := db.store.users,
        comments := softDeleteComments db.store.comments w c.ID db.now,
        posts := setCommentStatus db.store.posts c.PostID
          (if liveCommentCount (softDeleteComments db.store.comments w c.ID db.now) c.PostID == 0
            then "无评论" else "有评论") (some db.now) }) := by
  unfold DB.Delete DB.Transaction Comment.AfterDelete DB.CountComments DB.UpdateCommentStatus
    DB.invoke DB.exec
  rcases db with ⟨s, now, faults, log⟩
  by_cases hw : (w.isNone && c.ID == 0) = true
  · simp [hw]
  · rcases faults with _ | ⟨(_ | e1), (_ | ⟨(_ | e2), (_ | ⟨(_ | e3), rest⟩)⟩)⟩ <;> simp [hw]

/-- Without faults a `Delete` under a `Where` condition succeeds. -/
theorem Delete_faultFree (db : DB) (id : Nat) (c : Comment) (hf : db.faults = []) :
    (db.Delete (some id) c).1 = none := by
  unfold DB.Delete DB.Transaction Comment.AfterDelete DB.CountComments DB.UpdateCommentStatus
    DB.invoke DB.exec
  rcases db with ⟨s, now, faults, log⟩
  subst hf
  simp

/-- A failed statement anywhere in a `Delete` makes it fail and roll back. -/
theorem Delete_failure (db : DB) (w : Option Nat) (c : Comment)
    (h : ∃ e ∈ (db.Delete w c).2.since db, e.isFailure = true) :
    (db.Delete w c).1 ≠ none ∧ (db.Delete w c).2.store = db.store := by
  revert h
  unfold DB.Delete DB.Transaction Comment.AfterDelete DB.CountComments DB.UpdateCommentStatus
    DB.invoke DB.exec DB.since
  rcases db with ⟨s, now, faults, log⟩
  by_cases hw : (w.isNone && c.ID == 0) = true
  · simp [hw]
  · rcases faults with _ | ⟨(_ | e1), (_ | ⟨(_ | e2), (_ | ⟨(_ | e3), rest⟩)⟩)⟩ <;>
      simp [hw, Event.isFailure]

/-- The log of `DeleteComments` on a non-zero key: the soft-deleting `UPDATE`,
and, if it succeeded, one invocation of the delete hook. -/
theorem Delete_log (db : DB) (id : Nat) (c : Comment) :
    (db.faults = [] →
      (db.Delete (some id) c).2.log = db.log ++
        [Event.exec (.softDeleteComments (some id) c.ID) false,
         Event.hook (.commentAfterDelete c.PostID),
         Event.exec (.countComments c.PostID) false,
         Event.exec (.updateCommentStatus c.PostID
           (if liveCommentCount (softDeleteComments db.store.comments (some id) c.ID db.now)
              c.PostID == 0 then "无评论" else "有评论")) false]) ∧
    ∀ h, hookRuns (db.Delete (some id) c).2.log h = hookRuns db.log h +
      (if db.faults.head?.join = none ∧ h = .commentAfterDelete c.PostID then 1 else 0) := by
  unfold DB.Delete DB.Transaction Comment.AfterDelete DB.CountComments DB.UpdateCommentStatus
    DB.invoke DB.exec hookRuns
  rcases db with ⟨s, now, faults, log⟩
  refine ⟨?_, fun h => ?_⟩
  · intro hf
    simp only at hf
    subst hf
    simp
  · by_cases hh : h = .commentAfterDelete c.PostID
    · rcases faults with _ | ⟨(_ | e1), (_ | ⟨(_ | e2), (_ | ⟨(_ | e3), rest⟩)⟩)⟩ <;>
        simp [hh, List.count_cons]
    · have hh2 : ¬ (Hook.commentAfterDelete c.PostID = h) := fun e => hh e.symm
      rcases faults with _ | ⟨(_ | e1), (_ | ⟨(_ | e2), (_ | ⟨(_ | e3), rest⟩)⟩)⟩ <;>
        simp [hh, hh2, List.count_cons]

/-! ## `DeleteComments` -/

/-- C3. For a non-zero key of a live post: a fault-free `DeleteComments`
succeeds, and whenever its `Delete` succeeds the post (still live) has no live
comment left and its status reads "无评论", whatever the number of live comments
it had before. -/
theorem DeleteComments_clears (db : DB) (id : Nat) (hid : id ≠ 0)
    (hlive : hasLivePost db.store id) :
    (db.faults = [] → (db.Delete (some id) { PostID := id }).1 = none) ∧
    ((db.Delete (some id) { PostID := id }).1 = none →
      liveCommentCount (DeleteComments db id).store.comments id = 0 ∧
      hasLivePost (DeleteComments db id).store id ∧
      ∀ p ∈ (DeleteComments db id).store.posts, p.DeletedAt = none → p.ID = id →
        p.CommentStatus = "无评论") := by
  refine ⟨Delete_faultFree db id _, fun hok => ?_⟩
  have hD : DeleteComments db id = (db.Delete (some id) { PostID := id }).2 := by
    simp [DeleteComments, hid]
  rcases Delete_store db (some id) { PostID := id } with ⟨hne, -⟩ | ⟨-, hs⟩
  · exact absurd hok hne
  · rw [hD, hs]
    simp only [liveCommentCount_softDelete, beq_self_eq_true, if_true]
    exact ⟨trivial, exists_setCommentStatus _ _ hlive,
      fun p hp hl hi => (mem_setCommentStatus hp hl hi).1⟩

/-- C3 on the store `Insert` leaves: post 1 has three live comments, and after
`DeleteComments` none, with status "无评论"; post 2 keeps "有评论". -/
theorem DeleteComments_clears_witness :
    liveCommentCount blog.store.comments 1 = 3 ∧
    (liveCommentCount (DeleteComments blog 1).store.comments 1 = 0 ∧
      hasLivePost (DeleteComments blog 1).store 1 ∧
      ∀ p ∈ (DeleteComments blog 1).store.posts, p.DeletedAt = none → p.ID = 1 →
        p.CommentStatus = "无评论") ∧
    (DeleteComments blog 1).store.posts.map (fun p => (p.ID, p.CommentStatus)) =
      [(1, "无评论"), (2, "有评论")] :=
  ⟨by decide,
   (DeleteComments_clears blog 1 (by decide) ⟨_, List.mem_cons_self _ _, rfl, rfl⟩).2
     ((DeleteComments_clears blog 1 (by decide) ⟨_, List.mem_cons_self _ _, rfl, rfl⟩).1 rfl),
   by decide⟩

/-- C4. `DeleteComments` with the key 0 hands the handle back as it was: the
store is unchanged and nothing was sent or invoked (the log is unchanged). -/
theorem DeleteComments_zero (db : DB) : DeleteComments db 0 = db := by
  simp [DeleteComments]

/-- C8 does not hold as stated: on the store `Insert` leaves, post 1 has three
live comments and `DeleteComments` invokes the delete hook once. -/
theorem DeleteComments_hook_not_per_comment :
    liveCommentCount blog.store.comments 1 = 3 ∧
    hookRuns ((DeleteComments blog 1).since blog) (.commentAfterDelete 1) = 1 ∧
    hookRuns ((DeleteComments blog 1).since blog) (.commentAfterDelete 1) ≠
      liveCommentCount blog.store.comments 1 := by
  decide

/-- C8, amended. For a non-zero key, whatever the number of live comments of
the post: a fault-free `DeleteComments` sends one soft-deleting `UPDATE`, then
the mapper invokes `Comment.AfterDelete` once, which sends one count and one
status write ("无评论"); in general the hook is invoked once if the `UPDATE`
did not fail and not at all if it did. -/
theorem DeleteComments_hook_once (db : DB) (id : Nat) (hid : id ≠ 0) :
    (db.faults = [] →
      (DeleteComments db id).log = db.log ++
        [Event.exec (.softDeleteComments (some id) 0) false,
         Event.hook (.commentAfterDelete id),
         Event.exec (.countComments id) false,
         Event.exec (.updateCommentStatus id "无评论") false]) ∧
    hookRuns (DeleteComments db id).log (.commentAfterDelete id) =
      hookRuns db.log (.commentAfterDelete id) +
        (if db.faults.head?.join = none then 1 else 0) := by
  have hD : DeleteComments db id = (db.Delete (some id) { PostID := id }).2 := by
    simp [DeleteComments, hid]
  have h := Delete_log db id { PostID := id }
  simp only [liveCommentCount_softDelete, beq_self_eq_true, if_true] at h
  refine ⟨fun hf => ?_, ?_⟩
  · rw [hD]; exact h.1 hf
  · rw [hD, h.2]; simp

/-- C8 amended, on the store `Insert` leaves: three live comments, one hook run. -/
theorem DeleteComments_hook_once_witness :
    (DeleteComments blog 1).log =
        [Event.exec (.softDeleteComments (some 1) 0) false,
         Event.hook (.commentAfterDelete 1),
         Event.exec (.countComments 1) false,
         Event.exec (.updateCommentStatus 1 "无评论") false] ∧
    hookRuns (DeleteComments blog 1).log (.commentAfterDelete 1) = 1 :=
  ⟨(DeleteComments_hook_once blog 1 (by decide)).1 rfl,
   (DeleteComments_hook_once blog 1 (by decide)).2⟩

/-- C10. `DeleteComments` leaves the users alone, keeps every comment row in
place and unchanged unless it belongs to the post, and keeps every post row in
place and unchanged unless it is the post. -/
theorem DeleteComments_frame (db : DB) (id : Nat) :
    (DeleteComments db id).store.users = db.store.users ∧
    (DeleteComments db id).store.comments.length = db.store.comments.length ∧
    (∀ (i : Nat) (c : Comment), db.store.comments[i]? = some c → c.PostID ≠ id →
      (DeleteComments db id).store.comments[i]? = some c) ∧
    (DeleteComments db id).store.posts.length = db.store.posts.length ∧
    (∀ (i : Nat) (p : Post), db.store.posts[i]? = some p → p.ID ≠ id →
      (DeleteComments db id).store.posts[i]? = some p) := by
  by_cases hid : id = 0
  · subst hid
    have hz : DeleteComments db 0 = db := by simp [DeleteComments]
    rw [hz]
    exact ⟨rfl, rfl, fun _ _ h _ => h, rfl, fun _ _ h _ => h⟩
  · have hD : DeleteComments db id = (db.Delete (some id) { PostID := id }).2 := by
      simp [DeleteComments, hid]
    rcases Delete_store db (some id) { PostID := id } with ⟨-, hs⟩ | ⟨-, hs⟩
    · rw [hD, hs]
      exact ⟨rfl, rfl, fun _ _ h _ => h, rfl, fun _ _ h _ => h⟩
    · rw [hD, hs]
      refine ⟨rfl, ?_, fun i c hc hi => getElem?_softDeleteComments _ _ hc hi, ?_,
        fun i p hp hi => getElem?_setCommentStatus _ _ hp hi⟩
      · simp [softDeleteComments]
      · simp [setCommentStatus]

/-! ## The hooks and the operations around them -/

/-- The three hooks: each fails exactly when one of the statements it sent
failed; the comment hooks send the count and then, only if the count
succeeded, the status write; a failing hook has written nothing. -/
theorem hooks_fail_iff (c : Comment) (p : Post) (tx : DB) :
    (((c.AfterCreate tx).1 ≠ none ↔ ∃ e ∈ (c.AfterCreate tx).2.since tx, e.isFailure = true) ∧
      ((c.AfterCreate tx).2.since tx = [Event.exec (.countComments c.PostID) true] ∨
        ∃ b, (c.AfterCreate tx).2.since tx = [Event.exec (.countComments c.PostID) false,
          Event.exec (.updateColumnCommentStatus c.PostID
            (if liveCommentCount tx.store.comments c.PostID > 0 then "有评论" else "无评论")) b]) ∧
      ((c.AfterCreate tx).1 ≠ none → (c.AfterCreate tx).2.store = tx.store)) ∧
    (((c.AfterDelete tx).1 ≠ none ↔ ∃ e ∈ (c.AfterDelete tx).2.since tx, e.isFailure = true) ∧
      ((c.AfterDelete tx).2.since tx = [Event.exec (.countComments c.PostID) true] ∨
        ∃ b, (c.AfterDelete tx).2.since tx = [Event.exec (.countComments c.PostID) false,
          Event.exec (.updateCommentStatus c.PostID
            (if liveCommentCount tx.store.comments c.PostID == 0 then "无评论" else "有评论")) b]) ∧
      ((c.AfterDelete tx).1 ≠ none → (c.AfterDelete tx).2.store = tx.store)) ∧
    (((p.AfterCreate tx).1 ≠ none ↔ ∃ e ∈ (p.AfterCreate tx).2.since tx, e.isFailure = true) ∧
      (∃ b, (p.AfterCreate tx).2.since tx = [Event.exec (.incrPostCount p.UserID) b]) ∧
      ((p.AfterCreate tx).1 ≠ none → (p.AfterCreate tx).2.store = tx.store)) := by
  rcases tx with ⟨s, now, faults, log⟩
  refine ⟨?_, ?_, ?_⟩
  · unfold Comment.AfterCreate DB.CountComments DB.UpdateColumnCommentStatus DB.exec DB.since
    rcases faults with _ | ⟨(_ | e1), (_ | ⟨(_ | e2), rest⟩)⟩ <;> simp [Event.isFailure]
  · unfold Comment.AfterDelete DB.CountComments DB.UpdateCommentStatus DB.exec DB.since
    rcases faults with _ | ⟨(_ | e1), (_ | ⟨(_ | e2), rest⟩)⟩ <;> simp [Event.isFailure]
  · unfold Post.AfterCreate DB.IncrPostCount DB.exec DB.since
    rcases hv : postCountOverflows s.users p.UserID <;>
      rcases faults with _ | ⟨(_ | e1), rest⟩ <;> simp [Event.isFailure, hv]

/-- A failed `Create` of one comment leaves the store alone; a successful one
has appended the row and written the status from the count taken afterwards. -/
theorem CreateComment_store (db : DB) (c : Comment) :
    ((db.CreateComment c).1 ≠ none ∧ (db.CreateComment c).2.store = db.store) ∨
    ((db.CreateComment c).1 = none ∧ (db.CreateComment c).2.store =
      { users := db.store.users,
        comments := db.store.comments ++ [c.stored db],
        posts := setCommentStatus db.store.posts c.PostID
          (if liveCommentCount (db.store.comments ++ [c.stored db]) c.PostID > 0
            then "有评论" else "无评论") none }) := by
  unfold DB.CreateComment DB.Transaction DB.CreateComments runHooks newComments newComments
    Comment.AfterCreate DB.CountComments DB.UpdateColumnCommentStatus DB.invoke DB.exec
    Comment.stored
  rcases db with ⟨s, now, faults, log⟩
  dsimp only
  generalize insertCommentsError _ _ = o
  rcases o with _ | e <;>
    rcases faults with _ | ⟨(_ | e1), (_ | ⟨(_ | e2), (_ | ⟨(_ | e3), rest⟩)⟩)⟩ <;>
      simp [addError, Comment.kept]

/-- A failed `Create` of one post without comments leaves the store alone; a
successful one has sent the `INSERT` and, from the hook, the increment. -/
theorem CreatePost_store (db : DB) (p : Post) (hc : p.Comments = []) :
    ((db.CreatePost p).1 ≠ none ∧ (db.CreatePost p).2.store = db.store) ∨
    ((db.CreatePost p).1 = none ∧ (db.CreatePost p).2.store =
      { users := incrPostCount db.store.users p.UserID,
        comments := db.store.comments,
        posts := db.store.posts ++ [p.stored db] } ∧
      (db.CreatePost p).2.since db = [Event.exec (.insertPosts 1) false,
        Event.hook (.postAfterCreate p.UserID), Event.exec (.incrPostCount p.UserID) false]) := by
  unfold DB.CreatePost DB.Transaction DB.CreatePosts runHooks newPosts newPosts
    Post.AfterCreate DB.IncrPostCount DB.invoke DB.exec Post.stored DB.since
  rcases db with ⟨s, now, faults, log⟩
  dsimp only
  generalize insertPostsError _ _ = o
  rcases o with _ | e <;> rcases hv : postCountOverflows s.users p.UserID <;>
  rcases faults with _ | ⟨(_ | e1), (_ | ⟨(_ | e2), rest⟩)⟩ <;>
      simp [hc, hv, addError, Post.kept]

theorem takeBytes_of_le (l : List Char) (n : Nat) (h : String.utf8ByteSize.go l ≤ n) :
    takeBytes n l = l := by
  induction l generalizing n with
  | nil => rfl
  | cons c cs ih =>
    simp only [String.utf8ByteSize.go] at h
    have hc : c.utf8Size ≤ n := by omega
    simp only [takeBytes, hc, if_true]
    rw [ih (n - c.utf8Size) (by omega)]

/-- A value within the byte size of its column is kept as it is. -/
theorem keepBytes_of_le (n : Nat) (s : String) (h : s.utf8ByteSize ≤ n) :
    keepBytes n s = s ∧ tooLongBytes n s = false := by
  have ht : takeBytes n s.data = s.data := takeBytes_of_le s.data n h
  unfold keepBytes tooLongBytes
  rw [ht, List.drop_length]
  exact ⟨rfl, rfl⟩

/-- A value within the character size of its column is kept as it is. -/
theorem keepChars_of_le (n : Nat) (s : String) (h : s.length ≤ n) :
    keepChars n s = s ∧ tooLongChars n s = false := by
  have h2 : s.data.length ≤ n := h
  simp [keepChars, tooLongChars, List.take_of_length_le h2, List.drop_of_length_le h2]

theorem orphanComments_single {ps : List Post} {id : Nat} (hp : ∃ p ∈ ps, p.ID = id)
    (q : Comment) (hq : q.PostID = id) : orphanComments ps [q] = false := by
  obtain ⟨p, hp, hi⟩ := hp
  simp only [orphanComments, List.any_cons, List.any_nil, Bool.or_false, Bool.not_eq_false',
    List.any_eq_true, beq_iff_eq]
  exact ⟨p, hp, hi.trans hq.symm⟩

/-- The store accepts a comment that fits its column, with a key in range and
its post in place. -/
theorem insertCommentsError_single {ps : List Post} {id : Nat} (hp : ∃ p ∈ ps, p.ID = id)
    (q : Comment) (hq : q.PostID = id) (hsize : q.Content.utf8ByteSize ≤ maxText)
    (hkey : q.ID ≤ maxUint64) : insertCommentsError ps [q] = none := by
  have hk : ¬ maxUint64 < q.ID := by omega
  simp [insertCommentsError, orphanComments_single hp q hq, (keepBytes_of_le _ _ hsize).2, hk]

/-- The store accepts a post that fits its columns, with a key in range and
its user in place. -/
theorem insertPostsError_single {us : List User} {id : Nat} (hu : ∃ u ∈ us, u.ID = id)
    (q : Post) (hq : q.UserID = id) (htitle : q.Title.length ≤ 200)
    (hsize : q.Content.utf8ByteSize ≤ maxText) (hstatus : q.CommentStatus.length ≤ 20)
    (hkey : q.ID ≤ maxUint64) : insertPostsError us [q] = none := by
  have hk : ¬ maxUint64 < q.ID := by omega
  simp [insertPostsError, orphanPosts_single hu q hq, (keepBytes_of_le _ _ hsize).2,
    (keepChars_of_le _ _ htitle).2, (keepChars_of_le _ _ hstatus).2, hk]

/-- Without faults, with the post's row in place, a content that fits and a
key in range, the `Create` of one comment succeeds. -/
theorem CreateComment_ok (db : DB) (c : Comment) (hf : db.faults = [])
    (hp : ∃ p ∈ db.store.posts, p.ID = c.PostID)
    (hsize : c.Content.utf8ByteSize ≤ maxText)
    (hkey : nextID (db.store.comments.map (·.ID)) ≤ maxUint64) :
    (db.CreateComment c).1 = none := by
  have herr := insertCommentsError_single hp
    (c.stored db |> fun r => { r with Content := c.Content }) rfl hsize hkey
  unfold DB.CreateComment DB.Transaction DB.CreateComments
  rcases db with ⟨s, now, faults, log⟩
  simp only [Comment.stored] at hf hp herr
  subst hf
  simp [herr, runHooks, newComments, Comment.AfterCreate, DB.CountComments,
    DB.UpdateColumnCommentStatus, DB.invoke, DB.exec, addError]

theorem liveCommentCount_stored (cs : List Comment) (c : Comment) (db : DB) :
    liveCommentCount (cs ++ [c.stored db]) c.PostID = liveCommentCount cs c.PostID + 1 := by
  simp [liveCommentCount, Comment.stored, List.countP_append]

/-- Without faults, with the user's row in place, the counter and the key in
range and a title and content that fit, the `Create` of one post without
comments and with the default status succeeds. -/
theorem CreatePost_ok (db : DB) (p : Post) (hc : p.Comments = []) (hst : p.CommentStatus = "")
    (hf : db.faults = [])
    (hu : ∃ u ∈ db.store.users, u.ID = p.UserID)
    (hv : postCountOverflows db.store.users p.UserID = false)
    (htitle : p.Title.length ≤ 200) (hsize : p.Content.utf8ByteSize ≤ maxText)
    (hkey : nextID (db.store.posts.map (·.ID)) ≤ maxUint64) :
    (db.CreatePost p).1 = none := by
  have herr := insertPostsError_single hu
    { p with ID := nextID (db.store.posts.map fun x => x.ID), CreatedAt := db.now,
             UpdatedAt := db.now, DeletedAt := none, CommentStatus := "无评论" }
    rfl htitle hsize (show ("无评论" : String).length ≤ 20 by decide) hkey
  unfold DB.CreatePost DB.Transaction DB.CreatePosts
  rcases db with ⟨s, now, faults, log⟩
  simp only [hc] at hf hu hv herr
  subst hf
  simp [herr, hv, hc, hst, runHooks, newPosts, Post.AfterCreate, DB.IncrPostCount,
    DB.invoke, DB.exec, addError]

/-- The store refuses a comment whose content does not fit: the `Create` fails
and nothing is changed. -/
theorem CreateComment_refused (db : DB) (c : Comment)
    (h : tooLongBytes maxText c.Content = true) :
    (db.CreateComment c).1 ≠ none ∧ (db.CreateComment c).2.store = db.store := by
  have herr : ∀ r : Comment, r.Content = c.Content → ∀ ps,
      insertCommentsError ps [r] = some errDataTooLong := by
    intro r hr ps
    simp [insertCommentsError, hr, h]
  unfold DB.CreateComment DB.Transaction DB.CreateComments DB.exec
  rcases db with ⟨s, now, faults, log⟩
  rcases faults with _ | ⟨(_ | e1), rest⟩ <;> simp [newComments, herr]

/-- The store refuses a post whose title or content does not fit: the `Create`
fails and nothing is changed. -/
theorem CreatePost_refused (db : DB) (p : Post)
    (h : tooLongChars 200 p.Title = true ∨ tooLongBytes maxText p.Content = true) :
    (db.CreatePost p).1 ≠ none ∧ (db.CreatePost p).2.store = db.store := by
  have herr : ∀ r : Post, r.Title = p.Title → r.Content = p.Content → ∀ us,
      insertPostsError us [r] = some errDataTooLong := by
    intro r hr hr2 us
    rcases h with h | h <;> simp [insertPostsError, hr, hr2, h]
  unfold DB.CreatePost DB.Transaction DB.CreatePosts DB.exec
  rcases db with ⟨s, now, faults, log⟩
  rcases faults with _ | ⟨(_ | e1), rest⟩ <;> simp [newPosts, herr]

theorem takeBytes_replicate (n m : Nat) :
    takeBytes n (List.replicate m 'a') = List.replicate (min n m) 'a' := by
  induction m generalizing n with
  | zero => simp [takeBytes]
  | succ m ih =>
    have h1 : Char.utf8Size 'a' = 1 := by decide
    rcases n with _ | n
    · simp [List.replicate_succ, takeBytes, h1]
    · simp only [List.replicate_succ, takeBytes, h1]
      rw [if_pos (by omega), Nat.add_sub_cancel, ih, Nat.succ_min_succ, List.replicate_succ]

/-- A content of 70000 letters does not fit a `text` column. -/
theorem tooLongBytes_70000 :
    tooLongBytes maxText (String.mk (List.replicate 70000 'a')) = true := by
  unfold tooLongBytes maxText
  simp only [takeBytes_replicate, List.length_replicate, List.drop_replicate]
  have h : 70000 - min 65535 70000 = 4464 + 1 := by decide
  have hc : ('a' == ' ') = false := by decide
  rw [h, List.replicate_succ, List.all_cons, hc]
  rfl

/-! ## Errors are reported: hook loops and nested creates -/

theorem addError_ne_none (a b : Option String) : addError a b ≠ none ↔ a ≠ none ∨ b ≠ none := by
  cases a <;> cases b <;> simp [addError]

theorem Reports_Comment_AfterCreate (c : Comment) : Reports c.AfterCreate := by
  intro tx
  rcases tx with ⟨s, now, faults, log⟩
  unfold Comment.AfterCreate DB.CountComments DB.UpdateColumnCommentStatus DB.exec
  rcases faults with _ | ⟨(_ | e1), (_ | ⟨(_ | e2), rest⟩)⟩ <;> simp [Event.isFailure]

theorem Reports_Post_AfterCreate (p : Post) : Reports p.AfterCreate := by
  intro tx
  rcases tx with ⟨s, now, faults, log⟩
  unfold Post.AfterCreate DB.IncrPostCount DB.exec
  rcases hv : postCountOverflows s.users p.UserID <;>
    rcases faults with _ | ⟨(_ | e1), rest⟩ <;> simp [Event.isFailure, hv]

theorem runHooks_foldl {α : Type} (hook : α → DB → Option String × DB) (mark : α → Hook)
    (hh : ∀ x, Reports (hook x)) (xs : List α) (a : Option String) (tx : DB) :
    ∃ new, (xs.foldl (fun acc x =>
        let r := hook x (acc.2.invoke (mark x))
        (addError acc.1 r.1, r.2)) (a, tx)).2.log = tx.log ++ new ∧
      ((xs.foldl (fun acc x =>
        let r := hook x (acc.2.invoke (mark x))
        (addError acc.1 r.1, r.2)) (a, tx)).1 ≠ none ↔
        a ≠ none ∨ ∃ e ∈ new, e.isFailure = true) := by
  induction xs generalizing a tx with
  | nil => exact ⟨[], by simp⟩
  | cons x xs ih =>
    obtain ⟨n1, hl1, he1⟩ := hh x (tx.invoke (mark x))
    obtain ⟨n2, hl2, he2⟩ := ih (addError a (hook x (tx.invoke (mark x))).1)
      (hook x (tx.invoke (mark x))).2
    refine ⟨Event.hook (mark x) :: n1 ++ n2, ?_, ?_⟩
    · simp only [List.foldl_cons]
      rw [hl2, hl1]
      simp [DB.invoke]
    · simp only [List.foldl_cons]
      rw [he2, addError_ne_none, he1]
      simp only [List.mem_append, List.mem_cons]
      constructor
      · rintro ((h | ⟨e, he, hf⟩) | ⟨e, he, hf⟩)
        · exact Or.inl h
        · exact Or.inr ⟨e, Or.inl (Or.inr he), hf⟩
        · exact Or.inr ⟨e, Or.inr he, hf⟩
      · rintro (h | ⟨e, ((rfl | he) | he), hf⟩)
        · exact Or.inl (Or.inl h)
        · simp [Event.isFailure] at hf
        · exact Or.inl (Or.inr ⟨e, he, hf⟩)
        · exact Or.inr ⟨e, he, hf⟩

theorem Reports_runHooks {α : Type} (hook : α → DB → Option String × DB) (mark : α → Hook)
    (hh : ∀ x, Reports (hook x)) (xs : List α) : Reports (runHooks hook mark xs) := by
  intro tx
  obtain ⟨new, hl, he⟩ := runHooks_foldl hook mark hh xs none tx
  exact ⟨new, hl, by simpa using he⟩

theorem exec_log (tx : DB) (st : Stmt) (e : Option String) :
    (tx.exec st e).2.log = tx.log ++ [Event.exec st (tx.exec st e).1.isSome] := rfl

theorem Reports_CreateComments (cs : List Comment) : Reports (fun tx => tx.CreateComments cs) := by
  intro tx
  simp only [DB.CreateComments]
  generalize hrows : newComments _ _ cs = rows
  generalize insertCommentsError _ _ = o
  rcases hx : tx.exec (.insertComments rows.length) o with ⟨_ | err, tx1⟩
  · have hl := exec_log tx (.insertComments rows.length) o
    rw [hx] at hl
    obtain ⟨new, hl2, he2⟩ := Reports_runHooks Comment.AfterCreate
      (fun c => .commentAfterCreate c.PostID) Reports_Comment_AfterCreate rows
      { tx1 with store := { tx1.store with
        comments := tx1.store.comments ++ rows.map Comment.kept } }
    refine ⟨Event.exec (.insertComments rows.length) false :: new, ?_, ?_⟩
    · simp only [hl2]
      simp only at hl
      rw [hl]; simp
    · simp only [he2]
      simp [Event.isFailure]
  · have hl := exec_log tx (.insertComments rows.length) o
    rw [hx] at hl
    refine ⟨[Event.exec (.insertComments rows.length) true], ?_, ?_⟩
    · simpa using hl
    · simp [Event.isFailure]

theorem Reports_CreatePosts (ps : List Post) : Reports (fun tx => tx.CreatePosts ps) := by
  intro tx
  simp only [DB.CreatePosts]
  generalize hrows : newPosts _ _ ps = rows
  generalize insertPostsError _ _ = o
  have hl := exec_log tx (.insertPosts rows.length) o
  rcases hx : tx.exec (.insertPosts rows.length) o with ⟨_ | err, tx1⟩
  · rw [hx] at hl
    simp only at hl
    dsimp only
    generalize htx2 : ({ tx1 with store := { tx1.store with
      posts := tx1.store.posts ++ rows.map Post.kept } } : DB) = tx2
    have hlog2 : tx2.log = tx.log ++ [Event.exec (.insertPosts rows.length) false] := by
      rw [← htx2]; simpa using hl
    generalize (rows.map fun p => p.Comments.map ({ · with PostID := p.ID })).flatten = elems
    by_cases hemp : elems.isEmpty = true
    · simp only [hemp, if_true]
      obtain ⟨new, hl3, he3⟩ := Reports_runHooks Post.AfterCreate
        (fun p => .postAfterCreate p.UserID) Reports_Post_AfterCreate rows tx2
      refine ⟨Event.exec (.insertPosts rows.length) false :: new, ?_, ?_⟩
      · rw [hl3, hlog2]; simp
      · rw [he3]; simp [Event.isFailure]
    · simp only [hemp]
      obtain ⟨n2, hl2, he2⟩ := Reports_CreateComments elems tx2
      simp only at hl2 he2
      rcases hc : tx2.CreateComments elems with ⟨_ | err, tx3⟩
      · rw [hc] at hl2 he2
        simp only at hl2 he2
        obtain ⟨new, hl3, he3⟩ := Reports_runHooks Post.AfterCreate
          (fun p => .postAfterCreate p.UserID) Reports_Post_AfterCreate rows tx3
        refine ⟨Event.exec (.insertPosts rows.length) false :: n2 ++ new, ?_, ?_⟩
        · simp only [Bool.false_eq_true, if_false]
          rw [hl3, hl2, hlog2]; simp
        · simp only [Bool.false_eq_true, if_false]
          rw [he3]
          have hn2 : ¬ ∃ e ∈ n2, e.isFailure = true := fun h => (he2.2 h) rfl
          simp only [List.mem_cons, List.mem_append]
          constructor
          · rintro ⟨e, he, hf⟩
            exact ⟨e, Or.inr he, hf⟩
          · rintro ⟨e, ((rfl | he) | he), hf⟩
            · simp [Event.isFailure] at hf
            · exact absurd ⟨e, he, hf⟩ hn2
            · exact ⟨e, he, hf⟩
      · rw [hc] at hl2 he2
        simp only at hl2 he2
        refine ⟨Event.exec (.insertPosts rows.length) false :: n2, ?_, ?_⟩
        · simp only [Bool.false_eq_true, if_false]
          rw [hl2, hlog2]; simp
        · simp only [Bool.false_eq_true, if_false]
          have := he2.1 (by simp)
          obtain ⟨e, he, hf⟩ := this
          simp only [ne_eq, reduceCtorEq, not_false_eq_true, true_iff]
          exact ⟨e, List.mem_cons_of_mem _ he, hf⟩
  · rw [hx] at hl
    refine ⟨[Event.exec (.insertPosts rows.length) true], ?_, ?_⟩
    · simpa using hl
    · simp [Event.isFailure]

/-- Whatever the user value: a failed statement anywhere in `db.Create(&user)`,
a hook's statements included, makes it fail and roll back; and it fails only
when a statement failed. -/
theorem CreateUser_failure (db : DB) (user : User) :
    ((db.CreateUser user).1 ≠ none ↔ ∃ e ∈ (db.CreateUser user).2.since db, e.isFailure = true) ∧
    ((db.CreateUser user).1 ≠ none → (db.CreateUser user).2.store = db.store) := by
  unfold DB.CreateUser DB.Transaction
  dsimp only
  generalize insertUserError _ _ = d
  have hl := exec_log db (.insertUser user.Username) d
  rcases hx : db.exec (.insertUser user.Username) d with ⟨_ | err, tx1⟩
  · rw [hx] at hl
    simp only at hl
    dsimp only
    generalize htx2 : DB.mk _ tx1.now tx1.faults tx1.log = tx2
    have hlog2 : tx2.log = db.log ++ [Event.exec (.insertUser user.Username) false] := by
      rw [← htx2]; simpa using hl
    generalize List.map _ user.Posts = elems
    by_cases hemp : elems.isEmpty = true
    · simp [hemp, DB.since, hlog2, Event.isFailure]
    · simp only [hemp]
      obtain ⟨n2, hl2, he2⟩ := Reports_CreatePosts elems tx2
      simp only at hl2 he2
      rcases hc : tx2.CreatePosts elems with ⟨_ | err, tx3⟩
      · rw [hc] at hl2 he2
        simp only at hl2 he2
        have hn2 : ¬ ∃ e ∈ n2, e.isFailure = true := fun h => (he2.2 h) rfl
        simp only [Bool.false_eq_true, if_false, DB.since, hl2, hlog2]
        simp only [List.append_assoc, List.drop_left, ne_eq, not_true_eq_false, false_iff,
          false_implies, and_true]
        rintro ⟨e, he, hf⟩
        simp only [List.singleton_append, List.mem_cons] at he
        rcases he with rfl | he
        · simp [Event.isFailure] at hf
        · exact hn2 ⟨e, he, hf⟩
      · rw [hc] at hl2 he2
        simp only at hl2 he2
        obtain ⟨e, he, hf⟩ := he2.1 (by simp)
        simp only [Bool.false_eq_true, if_false, DB.since, hl2, hlog2]
        simp only [List.append_assoc, List.drop_left, ne_eq, reduceCtorEq, not_false_eq_true,
          true_iff, implies_true, and_true]
        exact ⟨e, by simp [he], hf⟩
  · rw [hx] at hl
    simp only at hl
    simp [DB.since, hl, Event.isFailure]


/-! ## Lemmas on the queries -/

theorem lookup_map_self (f : Nat → Nat) (l : List Nat) (k : Nat) :
    (l.map fun x => (x, f x)).lookup k = if k ∈ l then some (f k) else none := by
  induction l with
  | nil => simp
  | cons a l ih =>
    simp only [List.map_cons, List.lookup_cons, List.mem_cons]
    by_cases h : k = a
    · subst h; simp
    · have : (k == a) = false := by simpa using h
      rw [this, ih]
      simp [h]

theorem joinedCommentCount_commentStats (cs : List Comment) (p : Post) :
    joinedCommentCount (commentStats cs) p = liveCommentCount cs p.ID := by
  unfold joinedCommentCount commentStats liveCommentCount
  simp only
  rw [lookup_map_self (fun postID => List.countP (fun c => c.PostID == postID)
    (List.filter (fun c => c.DeletedAt.isNone) cs))]
  have hc : List.countP (fun c => c.PostID == p.ID) (List.filter (fun c => c.DeletedAt.isNone) cs)
      = List.countP (fun c => c.DeletedAt.isNone && c.PostID == p.ID) cs := by
    rw [List.countP_filter]
    congr 1
    funext c
    exact Bool.and_comm _ _
  by_cases h : p.ID ∈ (List.map (fun c => c.PostID) (List.filter (fun c => c.DeletedAt.isNone) cs)).dedup
  · rw [if_pos h, Option.getD_some, hc]
  · rw [if_neg h, Option.getD_none]
    symm
    rw [List.countP_eq_zero]
    intro c hcm hp
    apply h
    rw [List.mem_dedup, List.mem_map]
    simp only [Bool.and_eq_true, beq_iff_eq] at hp
    exact ⟨c, List.mem_filter.mpr ⟨hcm, hp.1⟩, hp.2⟩

/-- The first row of `ORDER BY comment_count DESC, id`: none when there are no
rows, else a row whose count no row exceeds. -/
theorem head?_insertionSort_byCommentCount (rows : List (Post × Nat)) :
    ((rows.insertionSort byCommentCount).head? = none ↔ rows = []) ∧
    ∀ r, (rows.insertionSort byCommentCount).head? = some r →
      r ∈ rows ∧ ∀ q ∈ rows, q.2 ≤ r.2 ∧ (q.2 = r.2 → r.1.ID ≤ q.1.ID) := by
  have hperm := List.perm_insertionSort byCommentCount rows
  have hsorted := List.sorted_insertionSort byCommentCount rows
  constructor
  · rw [List.head?_eq_none_iff]
    constructor
    · intro h; rw [h] at hperm; exact List.perm_nil.mp hperm.symm
    · intro h; rw [h]; rfl
  · intro r hr
    rcases hs : rows.insertionSort byCommentCount with _ | ⟨a, tl⟩
    · rw [hs] at hr; simp at hr
    · rw [hs] at hr hperm hsorted
      simp only [List.head?_cons, Option.some.injEq] at hr
      subst hr
      refine ⟨hperm.mem_iff.mp (List.mem_cons_self _ _), fun q hq => ?_⟩
      have hq2 := hperm.mem_iff.mpr hq
      rcases List.mem_cons.mp hq2 with rfl | hq3
      · exact ⟨le_refl _, fun _ => le_refl _⟩
      · have := List.rel_of_sorted_cons hsorted q hq3
        unfold byCommentCount at this
        omega

theorem preload_comments (cs : List Comment) (posts : List Post) (p : Post) (hp : p ∈ posts) :
    (cs.filter fun c => c.DeletedAt.isNone && posts.any (·.ID == c.PostID)).filter
        (·.PostID == p.ID) =
      cs.filter fun c => c.DeletedAt.isNone && c.PostID == p.ID := by
  rw [List.filter_filter]
  apply List.filter_congr
  intro c _
  by_cases h : c.PostID = p.ID
  · have : ∃ x ∈ posts, x.ID = p.ID := ⟨p, hp, rfl⟩
    simp [h, this]
  · have h2 : (c.PostID == p.ID) = false := by simpa using h
    simp only [h2, Bool.false_and, Bool.and_false]


/-- A transaction around an operation that reports its errors: it fails exactly
when a statement failed, and then the store is rolled back. -/
theorem Transaction_Reports (f : DB → Option String × DB) (hf : Reports f) (db : DB) :
    ((db.Transaction f).1 ≠ none ↔ ∃ e ∈ (db.Transaction f).2.since db, e.isFailure = true) ∧
    ((db.Transaction f).1 ≠ none → (db.Transaction f).2.store = db.store) := by
  obtain ⟨new, hl, he⟩ := hf db
  unfold DB.Transaction DB.since
  rcases hb : f db with ⟨_ | err, tx⟩
  · rw [hb] at hl he
    simp only at hl he
    simp only [hl, List.drop_left]
    exact ⟨he, fun h => absurd rfl h⟩
  · rw [hb] at hl he
    simp only at hl he
    simp only [hl, List.drop_left]
    exact ⟨he, fun _ => trivial⟩

/-! ## C9: hooks and the operations around them -/

/-- C9. Each hook returns an error exactly when one of the statements it
sent failed: the comment hooks send the count and, only if the count
succeeded, the status write; the post hook sends the increment; a hook that
fails has written nothing.  And a failing statement, a hook's included, makes
the enclosing `Create` or `Delete` fail and roll the store back. -/
theorem hook_failure_fails_operation (c : Comment) (p : Post) (user : User) (w : Option Nat)
    (tx db : DB) :
    ((((c.AfterCreate tx).1 ≠ none ↔ ∃ e ∈ (c.AfterCreate tx).2.since tx, e.isFailure = true) ∧
      ((c.AfterCreate tx).2.since tx = [Event.exec (.countComments c.PostID) true] ∨
        ∃ b, (c.AfterCreate tx).2.since tx = [Event.exec (.countComments c.PostID) false,
          Event.exec (.updateColumnCommentStatus c.PostID
            (if liveCommentCount tx.store.comments c.PostID > 0 then "有评论" else "无评论")) b]) ∧
      ((c.AfterCreate tx).1 ≠ none → (c.AfterCreate tx).2.store = tx.store)) ∧
    (((c.AfterDelete tx).1 ≠ none ↔ ∃ e ∈ (c.AfterDelete tx).2.since tx, e.isFailure = true) ∧
      ((c.AfterDelete tx).2.since tx = [Event.exec (.countComments c.PostID) true] ∨
        ∃ b, (c.AfterDelete tx).2.since tx = [Event.exec (.countComments c.PostID) false,
          Event.exec (.updateCommentStatus c.PostID
            (if liveCommentCount tx.store.comments c.PostID == 0 then "无评论" else "有评论")) b]) ∧
      ((c.AfterDelete tx).1 ≠ none → (c.AfterDelete tx).2.store = tx.store)) ∧
    (((p.AfterCreate tx).1 ≠ none ↔ ∃ e ∈ (p.AfterCreate tx).2.since tx, e.isFailure = true) ∧
      (∃ b, (p.AfterCreate tx).2.since tx = [Event.exec (.incrPostCount p.UserID) b]) ∧
      ((p.AfterCreate tx).1 ≠ none → (p.AfterCreate tx).2.store = tx.store))) ∧
    ((∃ e ∈ (db.Delete w c).2.since db, e.isFailure = true) →
      (db.Delete w c).1 ≠ none ∧ (db.Delete w c).2.store = db.store) ∧
    (((db.CreateComment c).1 ≠ none ↔
        ∃ e ∈ (db.CreateComment c).2.since db, e.isFailure = true) ∧
      ((db.CreateComment c).1 ≠ none → (db.CreateComment c).2.store = db.store)) ∧
    (((db.CreatePost p).1 ≠ none ↔ ∃ e ∈ (db.CreatePost p).2.since db, e.isFailure = true) ∧
      ((db.CreatePost p).1 ≠ none → (db.CreatePost p).2.store = db.store)) ∧
    (((db.CreateUser user).1 ≠ none ↔
        ∃ e ∈ (db.CreateUser user).2.since db, e.isFailure = true) ∧
      ((db.CreateUser user).1 ≠ none → (db.CreateUser user).2.store = db.store)) :=
  ⟨hooks_fail_iff c p tx, Delete_failure db w c,
    Transaction_Reports _ (Reports_CreateComments [c]) db,
    Transaction_Reports _ (Reports_CreatePosts [p]) db,
    CreateUser_failure db user⟩

/-! ## C1: the status column follows the comments -/

/-- A store whose status column has just been written from the count agrees. -/
theorem statusAgrees_written (us : List User) (cs : List Comment) (ps : List Post) (id : Nat)
    (st : String) (t : Option Nat)
    (hst : st = "有评论" ↔ 0 < liveCommentCount cs id) :
    statusAgrees { users := us, comments := cs, posts := setCommentStatus ps id st t } id := by
  intro p hp hl hi
  rw [(mem_setCommentStatus hp hl hi).1]
  exact hst

theorem CommentOp_run_preserves (postID : Nat) (db : DB) (op : CommentOp)
    (hp : hasLivePost db.store postID) (hinv : statusAgrees db.store postID) :
    hasLivePost (op.run postID db).store postID ∧ statusAgrees (op.run postID db).store postID := by
  have key : ∀ (us : List User) (cs : List Comment) (t : Option Nat),
      hasLivePost (Store.mk us (setCommentStatus db.store.posts postID
          (if liveCommentCount cs postID > 0 then "有评论" else "无评论") t) cs) postID ∧
      statusAgrees (Store.mk us (setCommentStatus db.store.posts postID
          (if liveCommentCount cs postID > 0 then "有评论" else "无评论") t) cs) postID := by
    intro us cs t
    refine ⟨exists_setCommentStatus _ _ hp, statusAgrees_written _ _ _ _ _ _ ?_⟩
    by_cases h : 0 < liveCommentCount cs postID
    · simp [h]
    · simp only [gt_iff_lt, h, if_false, iff_false]
      decide
  have key2 : ∀ (us : List User) (cs : List Comment) (t : Option Nat),
      hasLivePost (Store.mk us (setCommentStatus db.store.posts postID
          (if liveCommentCount cs postID == 0 then "无评论" else "有评论") t) cs) postID ∧
      statusAgrees (Store.mk us (setCommentStatus db.store.posts postID
          (if liveCommentCount cs postID == 0 then "无评论" else "有评论") t) cs) postID := by
    intro us cs t
    refine ⟨exists_setCommentStatus _ _ hp, statusAgrees_written _ _ _ _ _ _ ?_⟩
    by_cases h : liveCommentCount cs postID = 0
    · simp only [h, beq_self_eq_true, if_true, lt_self_iff_false, iff_false]
      decide
    · have h2 : 0 < liveCommentCount cs postID := Nat.pos_of_ne_zero h
      simp [h, h2]
  cases op with
  | create content userID =>
    rcases CreateComment_store db { Content := content, PostID := postID, UserID := userID } with
      ⟨-, hs⟩ | ⟨-, hs⟩
    · simp only [CommentOp.run, hs]; exact ⟨hp, hinv⟩
    · simp only [CommentOp.run, hs]; exact key _ _ _
  | delete c =>
    rcases Delete_store db none { c with PostID := postID } with ⟨-, hs⟩ | ⟨-, hs⟩
    · simp only [CommentOp.run, hs]; exact ⟨hp, hinv⟩
    · simp only [CommentOp.run, hs]; exact key2 _ _ _
  | deleteAll =>
    by_cases hz : postID = 0
    · simp only [CommentOp.run, DeleteComments, hz, beq_self_eq_true, if_true]
      exact hz ▸ ⟨hp, hinv⟩
    · have hD : DeleteComments db postID = (db.Delete (some postID) { PostID := postID }).2 := by
        simp [DeleteComments, hz]
      rcases Delete_store db (some postID) { PostID := postID } with ⟨-, hs⟩ | ⟨-, hs⟩
      · simp only [CommentOp.run, hD, hs]; exact ⟨hp, hinv⟩
      · simp only [CommentOp.run, hD, hs]; exact key2 _ _ _

/-- C1. From a store where a live post's status agrees with its comments,
after each operation of any sequence of comment creations, comment deletions
and `DeleteComments` on that post, whichever of them fail or are refused by
the store, the post is still live and its status is "有评论" exactly when it
has a live comment.  (On a fault-free handle the creation of a comment whose
content fits the `text` column, with a key left to hand out, adds one live
comment to the post, and `DeleteComments` leaves it none; a comment whose
content does not fit is refused and nothing changes.) -/
theorem CommentStatus_tracks_comments (db : DB) (postID : Nat)
    (hp : hasLivePost db.store postID) (hinv : statusAgrees db.store postID)
    (ops : List CommentOp) :
    (∀ s ∈ history (CommentOp.run postID) db ops,
      hasLivePost s.store postID ∧ statusAgrees s.store postID) ∧
    (db.faults = [] →
      (∀ content userID, content.utf8ByteSize ≤ maxText →
        nextID (db.store.comments.map (·.ID)) ≤ maxUint64 →
        liveCommentCount ((CommentOp.create content userID).run postID db).store.comments postID
          = liveCommentCount db.store.comments postID + 1) ∧
      (postID ≠ 0 →
        liveCommentCount (CommentOp.deleteAll.run postID db).store.comments postID = 0)) ∧
    (∀ content userID, tooLongBytes maxText content = true →
      ((CommentOp.create content userID).run postID db).store = db.store) := by
  refine ⟨?_, ?_, fun content userID hlong =>
    (CreateComment_refused db { Content := content, PostID := postID, UserID := userID }
      hlong).2⟩
  · induction ops generalizing db with
    | nil => intro s hs; simp [history] at hs
    | cons op ops ih =>
      intro s hs
      have hstep := CommentOp_run_preserves postID db op hp hinv
      simp only [history, List.mem_cons] at hs
      rcases hs with rfl | hs
      · exact hstep
      · exact ih _ hstep.1 hstep.2 s hs
  · intro hf
    constructor
    · intro content userID hsize hkey
      have hrow : ∃ p ∈ db.store.posts, p.ID = postID := by
        obtain ⟨p, hp, -, hi⟩ := hp
        exact ⟨p, hp, hi⟩
      have hok := CreateComment_ok db
        { Content := content, PostID := postID, UserID := userID } hf hrow hsize hkey
      rcases CreateComment_store db { Content := content, PostID := postID, UserID := userID } with
        ⟨hne, -⟩ | ⟨-, hs⟩
      · exact absurd hok hne
      · simp only [CommentOp.run, hs]
        exact liveCommentCount_stored db.store.comments
          { Content := content, PostID := postID, UserID := userID } db
    · intro hz
      have hD : DeleteComments db postID = (db.Delete (some postID) { PostID := postID }).2 := by
        simp [DeleteComments, hz]
      rcases Delete_store db (some postID) { PostID := postID } with ⟨hne, -⟩ | ⟨-, hs⟩
      · exact absurd (Delete_faultFree db postID _ hf) hne
      · simp only [CommentOp.run, hD, hs]
        exact liveCommentCount_softDelete _ _ _

/-- C1 on the store `Insert` leaves, post 1: delete its comments, add one,
delete that one by key, add two.  The status after each step, next to the
number of live comments.  A comment of 70000 letters is refused. -/
theorem CommentStatus_tracks_comments_witness :
    (∀ s ∈ history (CommentOp.run 1) blog
        [.deleteAll, .create "x" 1, .delete { ID := 6 }, .create "y" 1, .create "z" 1],
      hasLivePost s.store 1 ∧ statusAgrees s.store 1) ∧
    (history (CommentOp.run 1) blog
        [.deleteAll, .create "x" 1, .delete { ID := 6 }, .create "y" 1, .create "z" 1]).map
      (fun s => ((s.store.posts.filter (·.ID == 1)).map (·.CommentStatus),
        liveCommentCount s.store.comments 1)) =
      [(["无评论"], 0), (["有评论"], 1), (["无评论"], 0), (["有评论"], 1), (["有评论"], 2)] ∧
    ((CommentOp.create (String.mk (List.replicate 70000 'a')) 1).run 1 blog).store
      = blog.store :=
  ⟨(CommentStatus_tracks_comments blog 1 ⟨_, List.mem_cons_self _ _, rfl, rfl⟩
    (by unfold statusAgrees; decide) _).1, by decide,
   (CommentStatus_tracks_comments blog 1 ⟨_, List.mem_cons_self _ _, rfl, rfl⟩
    (by unfold statusAgrees; decide) []).2.2 _ 1 tooLongBytes_70000⟩

/-! ## C2: the post counter follows the posts -/

theorem createPostFor_preserves (userID : Nat) (db : DB) (post : String × String)
    (hu : hasLiveUser db.store userID) (hinv : postCountAgrees db.store userID) :
    hasLiveUser (createPostFor userID db post).store userID ∧
      postCountAgrees (createPostFor userID db post).store userID := by
  unfold createPostFor
  rcases CreatePost_store db { Title := post.1, Content := post.2, UserID := userID } rfl with
    ⟨-, hs⟩ | ⟨-, hs, -⟩
  · rw [hs]; exact ⟨hu, hinv⟩
  · rw [hs]
    refine ⟨exists_incrPostCount hu, ?_⟩
    intro u hmem hl hi
    obtain ⟨v, hv, hvl, hvi, hc⟩ := mem_incrPostCount hmem hl hi
    have := livePostCount_stored db.store.posts
      { Title := post.1, Content := post.2, UserID := userID } db
    simp only at this ⊢
    rw [hc, hinv v hv hvl hvi, this]
    push_cast
    rfl

/-- C2. From a store where a live user's counter is the number of its live
posts, after each of any sequence of post creations for that user, whichever
of them fail, the user is still live and the counter is the number of its live
posts.  A creation succeeds on a fault-free handle when the title fits
`varchar(200)` and the content the `text` column, while the counter is in
range and a key is left to hand out; a successful one sends the `INSERT` and
then, from the hook, one increment evaluated by the store (no read), which
adds 1 to the counter while the number of live posts grows by 1; a failed one
changes nothing, and one whose title or content does not fit is refused. -/
theorem PostCount_tracks_posts (db : DB) (userID : Nat)
    (hu : hasLiveUser db.store userID) (hinv : postCountAgrees db.store userID)
    (posts : List (String × String)) :
    (∀ s ∈ history (createPostFor userID) db posts,
      hasLiveUser s.store userID ∧ postCountAgrees s.store userID) ∧
    (∀ post : String × String,
      (db.faults = [] → postCountOverflows db.store.users userID = false →
        post.1.length ≤ 200 → post.2.utf8ByteSize ≤ maxText →
        nextID (db.store.posts.map (·.ID)) ≤ maxUint64 →
        (db.CreatePost { Title := post.1, Content := post.2, UserID := userID }).1 = none) ∧
      ((db.CreatePost { Title := post.1, Content := post.2, UserID := userID }).1 = none →
        (createPostFor userID db post).store.users = incrPostCount db.store.users userID ∧
        livePostCount (createPostFor userID db post).store.posts userID =
          livePostCount db.store.posts userID + 1 ∧
        (createPostFor userID db post).since db = [Event.exec (.insertPosts 1) false,
          Event.hook (.postAfterCreate userID), Event.exec (.incrPostCount userID) false]) ∧
      ((db.CreatePost { Title := post.1, Content := post.2, UserID := userID }).1 ≠ none →
        (createPostFor userID db post).store = db.store) ∧
      (tooLongChars 200 post.1 = true ∨ tooLongBytes maxText post.2 = true →
        (createPostFor userID db post).store = db.store)) := by
  constructor
  · induction posts generalizing db with
    | nil => intro s hs; simp [history] at hs
    | cons op ops ih =>
      intro s hs
      have hstep := createPostFor_preserves userID db op hu hinv
      simp only [history, List.mem_cons] at hs
      rcases hs with rfl | hs
      · exact hstep
      · exact ih _ hstep.1 hstep.2 s hs
  · intro post
    refine ⟨fun hf hv htitle hsize hkey =>
      CreatePost_ok db _ rfl rfl hf ?_ hv htitle hsize hkey, ?_, ?_, fun hlong =>
      (CreatePost_refused db { Title := post.1, Content := post.2, UserID := userID } hlong).2⟩
    · obtain ⟨u, hu, -, hi⟩ := hu
      exact ⟨u, hu, hi⟩
    · intro hok
      unfold createPostFor
      rcases CreatePost_store db { Title := post.1, Content := post.2, UserID := userID } rfl with
        ⟨hne, -⟩ | ⟨-, hs, hlog⟩
      · exact absurd hok hne
      · refine ⟨by rw [hs], ?_, hlog⟩
        rw [hs]
        exact livePostCount_stored db.store.posts
          { Title := post.1, Content := post.2, UserID := userID } db
    · intro hne
      unfold createPostFor
      rcases CreatePost_store db { Title := post.1, Content := post.2, UserID := userID } rfl with
        ⟨-, hs⟩ | ⟨hok, -⟩
      · exact hs
      · exact absurd hok hne


/-- C2 on the store `Insert` leaves, user 1: three more posts; a post whose
title has 201 letters is refused. -/
theorem PostCount_tracks_posts_witness :
    (∀ s ∈ history (createPostFor 1) blog [("t1", "c1"), ("t2", "c2"), ("t3", "c3")],
      hasLiveUser s.store 1 ∧ postCountAgrees s.store 1) ∧
    (history (createPostFor 1) blog [("t1", "c1"), ("t2", "c2"), ("t3", "c3")]).map
      (fun s => (s.store.users.map (·.PostCount), livePostCount s.store.posts 1)) =
      [([3], 3), ([4], 4), ([5], 5)] ∧
    (createPostFor 1 blog (String.mk (List.replicate 201 'a'), "c")).store = blog.store :=
  ⟨(PostCount_tracks_posts blog 1 ⟨_, List.mem_cons_self _ _, rfl, rfl⟩
    (by unfold postCountAgrees; decide) _).1, by decide,
   ((PostCount_tracks_posts blog 1 ⟨_, List.mem_cons_self _ _, rfl, rfl⟩
    (by unfold postCountAgrees; decide) []).2 _).2.2.2 (Or.inl (by decide))⟩

/-! ## C5, C6: the queries -/

/-- C5. On a fault-free handle `GetPostWithMostComments` returns an error
exactly when the store has no live post; otherwise it returns a live post and
the number of its live comments, no live post has more, and among the live
posts with as many it has the lowest key.  The store is not changed. -/
theorem GetPostWithMostComments_spec (db : DB) (hf : db.faults = []) :
    ((GetPostWithMostComments db).2.2.1 ≠ none ↔ ∀ p ∈ db.store.posts, p.DeletedAt ≠ none) ∧
    ((GetPostWithMostComments db).2.2.1 = none →
      (GetPostWithMostComments db).1 ∈ db.store.posts ∧
      (GetPostWithMostComments db).1.DeletedAt = none ∧
      (GetPostWithMostComments db).2.1 =
        liveCommentCount db.store.comments (GetPostWithMostComments db).1.ID ∧
      ∀ q ∈ db.store.posts, q.DeletedAt = none →
        liveCommentCount db.store.comments q.ID ≤ (GetPostWithMostComments db).2.1 ∧
        (liveCommentCount db.store.comments q.ID = (GetPostWithMostComments db).2.1 →
          (GetPostWithMostComments db).1.ID ≤ q.ID)) ∧
    (GetPostWithMostComments db).2.2.2.store = db.store := by
  rcases db with ⟨s, now, faults, log⟩
  simp only at hf
  subst hf
  obtain ⟨hnone, hsome⟩ := head?_insertionSort_byCommentCount
    ((s.posts.filter (·.DeletedAt.isNone)).map fun p =>
      (p, joinedCommentCount (commentStats s.comments) p))
  unfold GetPostWithMostComments DB.FirstPostByCommentCount DB.CountComments DB.exec
  simp only [List.head?_nil, Option.join, Option.bind]
  generalize (List.insertionSort byCommentCount _).head? = hd at hnone hsome ⊢
  rcases hd with _ | row
  · have hempty := hnone.mp rfl
    simp only [List.map_eq_nil_iff, List.filter_eq_nil_iff, Option.isNone_iff_eq_none] at hempty
    simp only [beq_self_eq_true, if_true, ne_eq, reduceCtorEq, not_false_eq_true, true_iff,
      false_implies, true_and, and_true]
    exact hempty
  · obtain ⟨hmem, hmax⟩ := hsome row rfl
    rw [List.mem_map] at hmem
    obtain ⟨p, hp, rfl⟩ := hmem
    rw [List.mem_filter] at hp
    simp only [Option.isNone_iff_eq_none] at hp
    have hq : ∀ q ∈ s.posts, q.DeletedAt = none →
        liveCommentCount s.comments q.ID ≤ liveCommentCount s.comments p.ID ∧
        (liveCommentCount s.comments q.ID = liveCommentCount s.comments p.ID → p.ID ≤ q.ID) := by
      intro q hq hql
      have := hmax (q, joinedCommentCount (commentStats s.comments) q)
        (List.mem_map.mpr ⟨q, List.mem_filter.mpr ⟨hq, by simp [hql]⟩, rfl⟩)
      simpa only [joinedCommentCount_commentStats] using this
    simp
    exact ⟨⟨p, hp.1, hp.2⟩, hp.1, hp.2, hq⟩


/-- C5 on posts with 3, 5 and 1 live comments: the post with 5, and 5. -/
theorem GetPostWithMostComments_spec_witness :
    (ranking.store.posts.map fun p => liveCommentCount ranking.store.comments p.ID) = [3, 5, 1] ∧
    (GetPostWithMostComments ranking).2.2.1 = none ∧
    (GetPostWithMostComments ranking).1.ID = 2 ∧
    (GetPostWithMostComments ranking).2.1 = 5 ∧
    ((GetPostWithMostComments ranking).2.2.1 ≠ none ↔
      ∀ p ∈ ranking.store.posts, p.DeletedAt ≠ none) :=
  ⟨by decide, by decide, by decide, by decide, (GetPostWithMostComments_spec ranking rfl).1⟩

/-- C6. On a fault-free handle `GetUserPostsWithComments` returns an error
exactly when no live user has the key; otherwise it returns the live posts of
the user, in table order, each carrying as `Comments` the live comments whose
`PostID` is its key, in table order.  The store is not changed. -/
theorem GetUserPostsWithComments_spec (db : DB) (userID : Nat) (hf : db.faults = []) :
    ((GetUserPostsWithComments db userID).2.1 ≠ none ↔ ¬ hasLiveUser db.store userID) ∧
    ((GetUserPostsWithComments db userID).2.1 = none →
      (GetUserPostsWithComments db userID).1 =
        (db.store.posts.filter fun p => p.DeletedAt.isNone && p.UserID == userID).map fun p =>
          { p with Comments :=
              db.store.comments.filter fun c => c.DeletedAt.isNone && c.PostID == p.ID }) ∧
    (GetUserPostsWithComments db userID).2.2.store = db.store := by
  rcases db with ⟨s, now, faults, log⟩
  simp only at hf
  subst hf
  unfold GetUserPostsWithComments DB.FirstUserPreloadPostsComments DB.exec hasLiveUser
  simp only [List.head?_nil, Option.join, Option.bind, List.tail_nil]
  have hfind : ∀ r, s.users.find? (fun u => u.DeletedAt.isNone && u.ID == userID) = r →
      match r with
      | none => ¬ ∃ u ∈ s.users, u.DeletedAt = none ∧ u.ID = userID
      | some user => user.ID = userID ∧ ∃ u ∈ s.users, u.DeletedAt = none ∧ u.ID = userID := by
    intro r hr
    rcases r with _ | user
    · rw [List.find?_eq_none] at hr
      rintro ⟨u, hmem, hl, hi⟩
      exact hr u hmem (by simp [hl, hi])
    · have hfound := List.find?_some hr
      simp only [Bool.and_eq_true, Option.isNone_iff_eq_none, beq_iff_eq] at hfound
      exact ⟨hfound.2, user, List.mem_of_find?_eq_some hr, hfound.1, hfound.2⟩
  have hfind2 := hfind _ rfl
  generalize List.find? _ s.users = fu at hfind2 ⊢
  rcases fu with _ | user
  · simp only at hfind2
    simp [hfind2]
  · obtain ⟨hid, hex⟩ := hfind2
    subst hid
    by_cases hemp : (s.posts.filter fun p => p.DeletedAt.isNone && p.UserID == user.ID).isEmpty = true
    · simp only [hemp, if_true]
      rw [List.isEmpty_iff] at hemp
      simp [hemp, hex]
    · simp only [hemp]
      simp only [Bool.false_eq_true, if_false, ne_eq, not_true_eq_false, hex, not_true_eq_false,
        true_implies, and_true, true_and]
      apply List.map_congr_left
      intro p hp
      rw [preload_comments _ _ p hp]


/-- C6 on the store `Insert` leaves: user 1 has two posts, with three and two
comments; user 2 does not exist. -/
theorem GetUserPostsWithComments_spec_witness :
    (GetUserPostsWithComments blog 1).2.1 = none ∧
    (GetUserPostsWithComments blog 1).1.map (fun p => (p.ID, p.Comments.map (·.ID))) =
      [(1, [1, 2, 3]), (2, [4, 5])] ∧
    (GetUserPostsWithComments blog 2).2.1 = some "查询用户失败：record not found" ∧
    ((GetUserPostsWithComments blog 2).2.1 ≠ none ↔ ¬ hasLiveUser blog.store 2) :=
  ⟨by decide, by decide, by decide, (GetUserPostsWithComments_spec blog 2 rfl).1⟩

/-! ## C7: `Insert` -/

/-- C7 fails on the code: `Insert` returns `nil` whatever happens to its
`Create`.  On the store a first `Insert` left, the `INSERT` of the user fails
on the unique index and nothing is added; on an empty store whose fourth
statement (the count in the first comment hook) fails, everything is rolled
back; both times `Insert` returns `nil`. -/
theorem Insert_discards_error :
    (Insert {}).2.store = blog.store ∧
    (Event.exec (.insertUser "root") true ∈ (Insert blog).2.log ∧
      (Insert blog).2.store = blog.store ∧ (Insert blog).1 = none) ∧
    (Event.exec (.countComments 1) true ∈
        (Insert { faults := [none, none, none, some "bad connection"] }).2.log ∧
      (Insert { faults := [none, none, none, some "bad connection"] }).2.store = {} ∧
      (Insert { faults := [none, none, none, some "bad connection"] }).1 = none) := by
  decide

end model_defintion
